import Mathlib

/-!
Verification of the JSON-repair pipeline of this repository.

The repository contains five near-duplicate repair scripts
(`generate_fixed.py`, `generate_fixed_v2.py`, `corrected_generate.py`,
`simple_fix.py`, `generate_alternative.py`).  We shallowly embed their
string-rewriting stages and the `json.loads` parser over `List Char`
(Python `str` is modelled as a list of characters) and prove or refute
the specification claims about them.

Python regular-expression substitutions are deterministic on the
patterns that appear in the source (`(\w+)(?=\s*":)`,
`(?<!")(\w+)(?=\s*":)` and `,\s*([}\]])`), because `\w+` and `\s*`
cannot backtrack into a successful lookahead here; the embeddings below
implement the exact left-to-right scan that CPython performs, as
single-pass state machines so that they stay structurally recursive and
kernel-computable.
-/

set_option maxRecDepth 8192

namespace VoiceAssistant

/-- Python strings are modelled as lists of characters. -/
abbrev Str := List Char

/-- The whitespace set of Python `str.strip()` and of `\s` (ASCII range). -/
def isPyWs (c : Char) : Bool :=
  c = ' ' || c = '\t' || c = '\n' || c = '\r' || c = '\x0b' || c = '\x0c'

/-- `str.strip()`: drop leading and trailing whitespace. -/
def pyStrip (s : Str) : Str :=
  ((s.dropWhile isPyWs).reverse.dropWhile isPyWs).reverse

/-- `sub in s` for Python strings (substring containment). -/
def pyContains (sub : Str) : Str → Bool
  | [] => sub.isEmpty
  | c :: rest => sub.isPrefixOf (c :: rest) || pyContains sub rest

/-- A `\w` word character (`[A-Za-z0-9_]`; the inputs here are ASCII). -/
def isWordChar (c : Char) : Bool :=
  ('a' ≤ c && c ≤ 'z') || ('A' ≤ c && c ≤ 'Z') || ('0' ≤ c && c ≤ '9') || c = '_'

/-- The zero-width lookahead `(?=\s*":)`: optional whitespace, then `"`
followed by `:`. -/
def lookaheadQuoteColon (s : Str) : Bool :=
  match s.dropWhile isPyWs with
  | '"' :: ':' :: _ => true
  | _ => false

/-- Scanner for `re.sub(r'(\w+)(?=\s*":)', r'"\1"', s)` (the key-quoting
substitution of `generate_fixed.py` and `corrected_generate.py`).
`buf` is the maximal word-character run read so far; when the run ends
the lookahead decides whether the whole run is wrapped in quotes.
Positions strictly inside a word run can never start a match of their
own (the lookahead would begin at a word character), so skipping the
whole run is exactly what CPython does. -/
def qkGo (buf : Str) : Str → Str
  | [] => buf
  | c :: rest =>
    if isWordChar c then qkGo (buf ++ [c]) rest
    else
      if buf ≠ [] ∧ lookaheadQuoteColon (c :: rest) then
        '"' :: buf ++ '"' :: c :: qkGo [] rest
      else
        buf ++ c :: qkGo [] rest

/-- `re.sub(r'(\w+)(?=\s*":)', r'"\1"', s)`. -/
def quoteKeys (s : Str) : Str := qkGo [] s

/-- Scanner for `re.sub(r'(?<!")(\w+)(?=\s*":)', r'"\1"', s)` (the
key-quoting substitution of `generate_fixed_v2.py`).  The negative
lookbehind only blocks a match that starts directly after a `"`; CPython
then retries one character later, still inside the same word run, so a
run of length at least two that is preceded by `"` has its tail (all but
the first character) wrapped in quotes.  `prev` is the input character
immediately before the current run. -/
def qkLbGo (prev : Option Char) (buf : Str) : Str → Str
  | [] => buf
  | c :: rest =>
    if isWordChar c then qkLbGo prev (buf ++ [c]) rest
    else
      if buf ≠ [] ∧ lookaheadQuoteColon (c :: rest) then
        (if prev = some '"' then
          match buf with
          | [b] => [b]
          | b :: bs => b :: '"' :: bs ++ ['"']
          | [] => []
        else '"' :: buf ++ ['"'])
          ++ c :: qkLbGo (some c) [] rest
      else
        buf ++ c :: qkLbGo (some c) [] rest

/-- `re.sub(r'(?<!")(\w+)(?=\s*":)', r'"\1"', s)`. -/
def quoteKeysLb (s : Str) : Str := qkLbGo none [] s

/-- A closing bracket as matched by `([}\]])`. -/
def isCloseCh (c : Char) : Bool := c = '}' || c = ']'

/-- Try to match `\s*([}\]])` at the head of `s`, returning the captured
closing character and the remainder after it. -/
def matchWsClose (s : Str) : Option (Char × Str) :=
  match s.dropWhile isPyWs with
  | c :: rest => if isCloseCh c then some (c, rest) else none
  | [] => none

/-- Scanner for `re.sub(r',\s*([}\]])', r'\1', s)` (trailing-comma
removal, identical in all repair variants).  State `some buf` means a
`,` has been read and `buf` is the whitespace seen since; a closing
bracket then replaces the whole match by itself, anything else flushes
the pending text unchanged.  This is the exact non-overlapping
left-to-right scan of `re.sub`. -/
def rtcGo : Option Str → Str → Str
  | none, [] => []
  | none, c :: rest =>
    if c = ',' then rtcGo (some []) rest
    else c :: rtcGo none rest
  | some buf, [] => ',' :: buf
  | some buf, c :: rest =>
    if isPyWs c then rtcGo (some (buf ++ [c])) rest
    else if isCloseCh c then c :: rtcGo none rest
    else if c = ',' then ',' :: buf ++ rtcGo (some []) rest
    else ',' :: buf ++ c :: rtcGo none rest

/-- `re.sub(r',\s*([}\]])', r'\1', s)`. -/
def removeTrailingCommas (s : Str) : Str := rtcGo none s

/-- Does `s` contain an occurrence of `,\s*[}\]]`? -/
def hasTCOcc : Str → Bool
  | [] => false
  | c :: rest => (if c = ',' then (matchWsClose rest).isSome else false) || hasTCOcc rest

/-- `s.replace('""', '"')` (the final cleanup of `simple_fix.py`). -/
def collapseDoubleQuotes : Str → Str
  | [] => []
  | [c] => [c]
  | c :: d :: rest =>
    if c = '"' ∧ d = '"' then '"' :: collapseDoubleQuotes rest
    else c :: collapseDoubleQuotes (d :: rest)

/-- Does `s` contain two adjacent double quotes? -/
def hasDQ : Str → Bool
  | [] => false
  | [_] => false
  | c :: d :: rest => if c = '"' ∧ d = '"' then true else hasDQ (d :: rest)

/-- `s.replace('"', '\\"')` (quote escaping in the list-rejection branch
of `generate_fixed.py` and `generate_fixed_v2.py`). -/
def escapeQuotes : Str → Str
  | [] => []
  | '"' :: rest => '\\' :: '"' :: escapeQuotes rest
  | c :: rest => c :: escapeQuotes rest

example : quoteKeys ("\x7b\"title\": \"A\"\x7d".toList)
    = "\x7b\"\"title\"\": \"A\"\x7d".toList := rfl
example : quoteKeysLb ("\x7b\"title\": \"A\"\x7d".toList)
    = "\x7b\"t\"itle\"\": \"A\"\x7d".toList := rfl
example : quoteKeysLb ("\x7btitle\": \"A\"\x7d".toList)
    = "\x7b\"title\"\": \"A\"\x7d".toList := rfl
example : quoteKeys ("ab cd\":".toList) = "ab \"cd\"\":".toList := rfl
example : quoteKeysLb ("a\"bc\":".toList) = "a\"b\"c\"\":".toList := rfl
example : quoteKeysLb ("\"a\":".toList) = "\"a\":".toList := rfl
example : removeTrailingCommas ("A,, ]".toList) = "A,]".toList := rfl
example : removeTrailingCommas (", ,]".toList) = ", ]".toList := rfl
example : removeTrailingCommas (",],]".toList) = "]]".toList := rfl

/-! ### A model of `json.loads`

Parsed JSON values.  Numbers keep their source text (none of the claims
depends on numeric values, and `json.dumps` of a parsed number prints
the same digits for the inputs that occur here); `NaN`/`Infinity`
constants, accepted by CPython, are not modelled — they occur in none of
the texts this development evaluates. -/
inductive Jv where
  | jstr : Str → Jv
  | jnum : Str → Jv
  | jbool : Bool → Jv
  | jnull : Jv
  | jarr : List Jv → Jv
  | jobj : List (Str × Jv) → Jv

/-- JSON whitespace (the `_w=WHITESPACE.match` set of `json.decoder`). -/
def isJWs (c : Char) : Bool :=
  c = ' ' || c = '\t' || c = '\n' || c = '\r'

/-- Skip JSON whitespace. -/
def skipJWs (s : Str) : Str := s.dropWhile isJWs

/-- Hexadecimal digit value. -/
def hexVal (c : Char) : Option Nat :=
  if '0' ≤ c ∧ c ≤ '9' then some (c.toNat - '0'.toNat)
  else if 'a' ≤ c ∧ c ≤ 'f' then some (c.toNat - 'a'.toNat + 10)
  else if 'A' ≤ c ∧ c ≤ 'F' then some (c.toNat - 'A'.toNat + 10)
  else none

/-- Prepend a character to the string component of a partial parse. -/
def consFst (c : Char) : Option (Str × Str) → Option (Str × Str)
  | some (s, r) => some (c :: s, r)
  | none => none

/-- Parse a JSON string body (after the opening quote) up to and
including the closing quote, decoding escapes; strict mode, so raw
control characters are rejected.  Lone-surrogate `\uXXXX` escapes,
which CPython strings can hold but `Char` cannot, are rejected; they
occur in none of the texts this development evaluates. -/
def parseStringBody : Str → Option (Str × Str)
  | [] => none
  | c :: rest =>
    if c = '"' then some ([], rest)
    else if c = '\\' then
      (match rest with
      | [] => none
      | e :: r =>
        if e = '"' then consFst '"' (parseStringBody r)
        else if e = '\\' then consFst '\\' (parseStringBody r)
        else if e = '/' then consFst '/' (parseStringBody r)
        else if e = 'b' then consFst '\x08' (parseStringBody r)
        else if e = 'f' then consFst '\x0c' (parseStringBody r)
        else if e = 'n' then consFst '\n' (parseStringBody r)
        else if e = 'r' then consFst '\r' (parseStringBody r)
        else if e = 't' then consFst '\t' (parseStringBody r)
        else if e = 'u' then
          (match r with
          | h1 :: h2 :: h3 :: h4 :: r2 =>
            (match hexVal h1, hexVal h2, hexVal h3, hexVal h4 with
            | some a, some b, some c', some d =>
              let n := ((a * 16 + b) * 16 + c') * 16 + d
              if n < 0xd800 ∨ 0xdfff < n then consFst (Char.ofNat n) (parseStringBody r2)
              else none
            | _, _, _, _ => none)
          | _ => none)
        else none)
    else if c.toNat < 0x20 then none
    else consFst c (parseStringBody rest)

/-- Is `c` a decimal digit? -/
def isDigitCh (c : Char) : Bool := '0' ≤ c && c ≤ '9'

/-- The optional fraction part `(\.\d+)?` of a JSON number. -/
def lexFrac (s : Str) : Str × Str :=
  match s with
  | '.' :: r =>
    let d := r.takeWhile isDigitCh
    if d = [] then ([], s) else ('.' :: d, r.dropWhile isDigitCh)
  | _ => ([], s)

/-- The optional exponent part `([eE][-+]?\d+)?` of a JSON number. -/
def lexExp (s : Str) : Str × Str :=
  match s with
  | c :: r =>
    if c = 'e' ∨ c = 'E' then
      let p : Str × Str :=
        match r with
        | '+' :: t => (['+'], t)
        | '-' :: t => (['-'], t)
        | _ => ([], r)
      let d := p.2.takeWhile isDigitCh
      if d = [] then ([], s) else (c :: p.1 ++ d, p.2.dropWhile isDigitCh)
    else ([], s)
  | [] => ([], s)

/-- Lex a JSON number `(-?(?:0|[1-9]\d*))(\.\d+)?([eE][-+]?\d+)?`,
returning its text. -/
def lexNumber (s : Str) : Option (Str × Str) :=
  let p : Str × Str :=
    match s with
    | '-' :: r => (['-'], r)
    | _ => ([], s)
  match p.2 with
  | '0' :: r =>
    let f := lexFrac r
    let e := lexExp f.2
    some (p.1 ++ '0' :: f.1 ++ e.1, e.2)
  | c :: r =>
    if '1' ≤ c ∧ c ≤ '9' then
      let ds := r.takeWhile isDigitCh
      let f := lexFrac (r.dropWhile isDigitCh)
      let e := lexExp f.2
      some (p.1 ++ c :: ds ++ f.1 ++ e.1, e.2)
    else none
  | [] => none

/-- Parser tasks: a value, the elements of an array after the first
position, or the members of an object (positioned at a key quote). -/
inductive PTask where
  | val : PTask
  | elems : List Jv → PTask
  | members : List (Str × Jv) → PTask

/-- `dict` update: later duplicate keys overwrite the stored value but
keep the original position, as in CPython. -/
def objSet : List (Str × Jv) → Str → Jv → List (Str × Jv)
  | [], k, v => [(k, v)]
  | (k', v') :: rest, k, v =>
    if k' = k then (k', v) :: rest else (k', v') :: objSet rest k v

/-- The recursive JSON parser (fuel-indexed so that it is structurally
recursive and computable by the kernel).  It follows `json.decoder`:
values skip leading whitespace; arrays and objects are comma-separated
with no trailing comma; object keys are strings followed by `:`. -/
def parseGo : Nat → PTask → Str → Option (Jv × Str)
  | 0, _, _ => none
  | Nat.succ f, PTask.val, s =>
    (match skipJWs s with
    | '"' :: rest =>
      (match parseStringBody rest with
      | some (str, r) => some (Jv.jstr str, r)
      | none => none)
    | '[' :: rest =>
      (match skipJWs rest with
      | ']' :: r => some (Jv.jarr [], r)
      | s' => parseGo f (PTask.elems []) s')
    | '{' :: rest =>
      (match skipJWs rest with
      | '}' :: r => some (Jv.jobj [], r)
      | s' => parseGo f (PTask.members []) s')
    | 't' :: 'r' :: 'u' :: 'e' :: r => some (Jv.jbool true, r)
    | 'f' :: 'a' :: 'l' :: 's' :: 'e' :: r => some (Jv.jbool false, r)
    | 'n' :: 'u' :: 'l' :: 'l' :: r => some (Jv.jnull, r)
    | s' =>
      (match lexNumber s' with
      | some (txt, r) => some (Jv.jnum txt, r)
      | none => none))
  | Nat.succ f, PTask.elems acc, s =>
    (match parseGo f PTask.val s with
    | none => none
    | some (v, r) =>
      (match skipJWs r with
      | ',' :: r2 => parseGo f (PTask.elems (v :: acc)) r2
      | ']' :: r2 => some (Jv.jarr (acc.reverse ++ [v]), r2)
      | _ => none))
  | Nat.succ f, PTask.members acc, s =>
    (match s with
    | '"' :: rest =>
      (match parseStringBody rest with
      | none => none
      | some (k, r1) =>
        (match skipJWs r1 with
        | ':' :: r2 =>
          (match parseGo f PTask.val r2 with
          | none => none
          | some (v, r3) =>
            (match skipJWs r3 with
            | ',' :: r4 => parseGo f (PTask.members (objSet acc k v)) (skipJWs r4)
            | '}' :: r4 => some (Jv.jobj (objSet acc k v), r4)
            | _ => none))
        | _ => none))
    | _ => none)

/-- `json.loads`: parse one value, then require only whitespace to
remain.  The fuel `2 * s.length + 2` is enough for any input, because
every recursive call of `parseGo` follows the consumption of at least
one character, at most two calls deep per character. -/
def parseJson (s : Str) : Option Jv :=
  match parseGo (2 * s.length + 2) PTask.val s with
  | some (v, r) => if skipJWs r = [] then some v else none
  | none => none

/-- Key lookup in a parsed object, `data['k']`-style. -/
def getKey (kvs : List (Str × Jv)) (k : Str) : Option Jv :=
  match kvs with
  | [] => none
  | (k', v) :: rest => if k' = k then some v else getKey rest k

/-- `isinstance(data, dict) and 'k' in data`. -/
def hasKey (v : Jv) (k : Str) : Bool :=
  match v with
  | Jv.jobj kvs => (getKey kvs k).isSome
  | _ => false

/-- The string content of field `k` of a parsed object, when that field
exists and is a string. -/
def fieldStr (v : Jv) (k : Str) : Option Str :=
  match v with
  | Jv.jobj kvs =>
    (match getKey kvs k with
    | some (Jv.jstr s) => some s
    | _ => none)
  | _ => none

/-- Does `v` satisfy the target schema: `title` a string, `outline` an
array of strings, `intro` a string? -/
def schemaOK (v : Jv) : Bool :=
  match v with
  | Jv.jobj kvs =>
    (match getKey kvs ("title".toList), getKey kvs ("outline".toList),
        getKey kvs ("intro".toList) with
    | some (Jv.jstr _), some (Jv.jarr xs), some (Jv.jstr _) =>
      xs.all fun x => match x with | Jv.jstr _ => true | _ => false
    | _, _, _ => false)
  | _ => false

example : parseJson ("\x7b\"title\": \"A\", \"outline\": [\"B\"], \"intro\": \"C\"\x7d".toList)
    = some (Jv.jobj [("title".toList, Jv.jstr ("A".toList)),
        ("outline".toList, Jv.jarr [Jv.jstr ("B".toList)]),
        ("intro".toList, Jv.jstr ("C".toList))]) := rfl

/-! ### The five repair variants -/

/-- The literal `'"title":'`. -/
def titleKey : Str := "\"title\":".toList
/-- The literal `'"outline":'`. -/
def outlineKey : Str := "\"outline\":".toList
/-- The literal `'"intro":'`. -/
def introKey : Str := "\"intro\":".toList

/-- The string returned by the list-rejection branch of
`generate_fixed.py` and `generate_fixed_v2.py` (identical line in both):
`'{"error": "Model generated non-JSON output", "raw_output": "' +
json_str.replace('"', '\\"')[:100] + '..."}'`. -/
def errPayloadGF (s : Str) : Str :=
  "\x7b\"error\": \"Model generated non-JSON output\", \"raw_output\": \"".toList
    ++ (escapeQuotes s).take 100 ++ "...\"\x7d".toList

/-- The string returned by the list-rejection branch of
`corrected_generate.py`: `'{"error": "Model generated non-JSON output"}'`. -/
def errPayloadCG : Str :=
  "\x7b\"error\": \"Model generated non-JSON output\"\x7d".toList

/-- `fix_json` of `generate_fixed.py`: the list-rejection check is on
the raw (untrimmed) input; the key-quoting regex has no lookbehind and
is applied unconditionally; braces are completed; trailing commas are
removed; the result is stripped. -/
def fixJsonGF (s : Str) : Str :=
  if s.head? = some '[' ∧ ¬ (pyStrip s).head? = some '{' then
    errPayloadGF s
  else
    let s1 := quoteKeys s
    let s2 := if (pyStrip s1).head? = some '{' then s1 else '{' :: s1
    let s3 := if (pyStrip s2).getLast? = some '}' then s2 else s2 ++ ['}']
    pyStrip (removeTrailingCommas s3)

/-- Brace completion, the two `if not ... startswith`/`endswith` lines
repeated across `generate_fixed_v2.py`, `corrected_generate.py` and the
source variants: prepend `{` when missing, then append `}` when
missing. -/
def withBraces (x : Str) : Str :=
  let s1 := if x.head? = some '{' then x else '{' :: x
  if s1.getLast? = some '}' then s1 else s1 ++ ['}']

/-- `fix_json` of `generate_fixed_v2.py`: list-rejection check on the
raw input, then strip, then the lookbehind key-quoting regex, braces,
trailing commas. -/
def fixJsonV2 (s : Str) : Str :=
  if s.head? = some '[' ∧ ¬ (pyStrip s).head? = some '{' then
    errPayloadGF s
  else
    removeTrailingCommas (withBraces (quoteKeysLb (pyStrip s)))

/-- `fix_json_correctly` of `corrected_generate.py`: strip first, then
list rejection; if some required key is already quoted, skip the
key-quoting regex and only complete braces, otherwise quote keys and
complete braces; finally remove trailing commas. -/
def fixJsonCorrectly (s : Str) : Str :=
  let j := pyStrip s
  if j.head? = some '[' ∧ ¬ (pyStrip j).head? = some '{' then
    errPayloadCG
  else
    if pyContains titleKey j || pyContains outlineKey j || pyContains introKey j then
      removeTrailingCommas (withBraces j)
    else
      removeTrailingCommas (withBraces (quoteKeys j))

/-- `fix_json_simple` of `simple_fix.py`: strip; braces are added only
when the text contains `'"title":'` or `'"outline":'`; trailing commas
are removed; finally `'""'` is collapsed to `'"'`. -/
def fixJsonSimple (s : Str) : Str :=
  let j := pyStrip s
  let s1 :=
    if ¬ j.head? = some '{' ∧ (pyContains titleKey j || pyContains outlineKey j) then
      '{' :: j
    else j
  let s2 :=
    if ¬ s1.getLast? = some '}' ∧ (pyContains titleKey s1 || pyContains outlineKey s1) then
      s1 ++ ['}']
    else s1
  collapseDoubleQuotes (removeTrailingCommas s2)

/-! ### The surrounding `main` pipelines -/

/-- `str.lower()` (ASCII). -/
def pyLower (s : Str) : Str := s.map Char.toLower

/-- The fallback record built by `main` of `generate_fixed.py`,
`generate_fixed_v2.py` and `corrected_generate.py` when parsing the
cleaned text fails. -/
def fallbackRecord (topic tone : Str) : Jv :=
  Jv.jobj [("title".toList, Jv.jstr (topic ++ " Guide".toList)),
    ("outline".toList, Jv.jarr [Jv.jstr ("Introduction".toList),
      Jv.jstr ("Main Content".toList), Jv.jstr ("Conclusion".toList)]),
    ("intro".toList, Jv.jstr ("This is a ".toList ++ pyLower tone
      ++ " guide about ".toList ++ pyLower topic ++ ".".toList))]

/-- The fallback record built by `main` of `simple_fix.py`. -/
def fallbackRecordSF (topic : Str) : Jv :=
  Jv.jobj [("title".toList, Jv.jstr ("Professional ".toList ++ topic
      ++ ": A Comprehensive Guide".toList)),
    ("outline".toList, Jv.jarr [Jv.jstr ("Getting Started".toList),
      Jv.jstr ("Key Techniques".toList), Jv.jstr ("Advanced Tips".toList)]),
    ("intro".toList, Jv.jstr ("This professional guide provides comprehensive insights into ".toList
      ++ pyLower topic ++ ".".toList))]

/-- What a `main` run finally reports: the parsed record, a record
rebuilt by field-level salvage, the template fallback, or nothing at
all (the `simple_fix.py` path that prints no record). -/
inductive Outcome where
  | success : Jv → Outcome
  | reconstructed : Jv → Outcome
  | fallback : Jv → Outcome
  | silent : Outcome

/-- `main` of `generate_fixed.py` (lines 69-85): parse the cleaned
text; on success report it with no schema check, otherwise report the
template fallback. -/
def mainResultGF (topic tone raw : Str) : Outcome :=
  match parseJson (fixJsonGF raw) with
  | some v => Outcome.success v
  | none => Outcome.fallback (fallbackRecord topic tone)

/-- `main` of `corrected_generate.py` (lines 76-92): parse the cleaned
text; on success report it with no schema check, otherwise report the
template fallback. -/
def mainResultCG (topic tone raw : Str) : Outcome :=
  match parseJson (fixJsonCorrectly raw) with
  | some v => Outcome.success v
  | none => Outcome.fallback (fallbackRecord topic tone)

/-! ### Field-level salvage of `simple_fix.py` -/

/-- Index of the first occurrence of `needle`. -/
def pyFindAux (needle : Str) : Str → Option Nat
  | [] => if needle.isEmpty then some 0 else none
  | c :: rest =>
    if needle.isPrefixOf (c :: rest) then some 0
    else (pyFindAux needle rest).map (· + 1)

/-- Clamp a Python index (negative values count from the end) into
`[0, n]`. -/
def clampIdx (n : Nat) (i : Int) : Nat :=
  if i < 0 then (if (n : Int) + i < 0 then 0 else ((n : Int) + i).toNat)
  else (if (n : Int) < i then n else i.toNat)

/-- `hay.find(needle, start)`: first index at or after `start`, `-1` if
absent. -/
def pyFindFrom (needle hay : Str) (start : Int) : Int :=
  let st := clampIdx hay.length start
  match pyFindAux needle (hay.drop st) with
  | some k => ((st + k : Nat) : Int)
  | none => -1

/-- `hay[a:b]` with Python slice semantics. -/
def pySlice (hay : Str) (a b : Int) : Str :=
  (hay.take (clampIdx hay.length b)).drop (clampIdx hay.length a)

/-- `s.strip(chars)`: drop the given characters from both ends. -/
def pyStripChars (chars : Str) (s : Str) : Str :=
  ((s.dropWhile (fun c => chars.contains c)).reverse.dropWhile
    (fun c => chars.contains c)).reverse

/-- Body of the `for i in range(start+1, len(raw))` loop of
`simple_fix.py` looking for the first unescaped quote: `prev` is
`raw[i-1]`. -/
def fuqGo (prev : Char) (i : Nat) : Str → Option Nat
  | [] => none
  | c :: rest => if c = '"' ∧ ¬ prev = '\\' then some i else fuqGo c (i + 1) rest

/-- `intro_end`: the first index `i > start` with `raw[i] == '"'` and
`raw[i-1] != '\\'`, or `len(raw)` when the loop finds none. -/
def firstUnescapedQuote (raw : Str) (start : Nat) : Nat :=
  match raw.drop start with
  | [] => raw.length
  | p :: rest =>
    (match fuqGo p (start + 1) rest with
    | some i => i
    | none => raw.length)

/-- The manual reconstruction of `main` in `simple_fix.py` (lines
72-99): slice the *raw* text around `'"title":'`, `'"outline":'` and
`'"intro":'`; `json.loads` of the outline slice is the only operation
that can raise, which the source catches, so it is the only `none`
case. -/
def reconstructSF (raw : Str) : Option Jv :=
  let titleStart : Int := pyFindFrom titleKey raw 0 + 8
  let te0 : Int := pyFindFrom ("\",".toList) raw titleStart
  let titleEnd : Int :=
    if te0 = -1 then pyFindFrom ("\"".toList) raw (titleStart + 1) else te0
  let title := pyStripChars (" \"".toList) (pySlice raw titleStart titleEnd)
  let outlineStart : Int := pyFindFrom outlineKey raw 0 + 10
  let outlineEnd : Int := pyFindFrom ("]".toList) raw outlineStart + 1
  let outlineStr := pyStrip (pySlice raw outlineStart outlineEnd)
  match parseJson outlineStr with
  | none => none
  | some ov =>
    let introStart : Int := pyFindFrom introKey raw 0 + 8
    let introEnd : Int := (firstUnescapedQuote raw introStart.toNat : Int)
    let intro := pyStripChars (" \"".toList) (pySlice raw introStart introEnd)
    some (Jv.jobj [("title".toList, Jv.jstr title),
      ("outline".toList, ov), ("intro".toList, Jv.jstr intro)])

/-- `main` of `simple_fix.py`: parse the cleaned text; on failure, only
when all three quoted keys occur in the *raw* text attempt manual
reconstruction from `raw`, falling back to the template when
`json.loads` of the outline slice fails; when the keys are absent
nothing is reported at all. -/
def mainResultSF (topic raw : Str) : Outcome :=
  match parseJson (fixJsonSimple raw) with
  | some v => Outcome.success v
  | none =>
    if pyContains titleKey raw && pyContains outlineKey raw
        && pyContains introKey raw then
      match reconstructSF raw with
      | some r => Outcome.reconstructed r
      | none => Outcome.fallback (fallbackRecordSF topic)
    else Outcome.silent

/-! ### Field-level salvage of `generate_fixed_v2.py` -/

/-- Match `\s*"([^"]+)"` at the head of `s`, returning the capture. -/
def matchStrVal (s : Str) : Option Str :=
  match s.dropWhile isPyWs with
  | '"' :: r =>
    let v := r.takeWhile (fun c => ¬ c = '"')
    if v.isEmpty then none
    else
      (match r.dropWhile (fun c => ¬ c = '"') with
      | '"' :: _ => some v
      | _ => none)
  | _ => none

/-- Match `\s*(\[[^\]]+\])` at the head of `s`, returning the capture
including the brackets. -/
def matchArrVal (s : Str) : Option Str :=
  match s.dropWhile isPyWs with
  | '[' :: r =>
    let v := r.takeWhile (fun c => ¬ c = ']')
    if v.isEmpty then none
    else
      (match r.dropWhile (fun c => ¬ c = ']') with
      | ']' :: _ => some ('[' :: v ++ [']'])
      | _ => none)
  | _ => none

/-- `re.search` for a pattern made of the literal `key` followed by a
tail matcher `m`: the leftmost position where the whole pattern
matches. -/
def searchPat (key : Str) (m : Str → Option Str) : Str → Option Str
  | [] => none
  | c :: rest =>
    (match if key.isPrefixOf (c :: rest) then m ((c :: rest).drop key.length)
        else none with
    | some v => some v
    | none => searchPat key m rest)

/-- The manual reconstruction of `main` in `generate_fixed_v2.py`
(lines 90-111): the three `re.search` calls run on the *cleaned* text;
all three must match, and `json.loads` of the captured outline must
succeed. -/
def reconstructV2 (cleaned : Str) : Option Jv :=
  match searchPat titleKey matchStrVal cleaned,
      searchPat outlineKey matchArrVal cleaned,
      searchPat introKey matchStrVal cleaned with
  | some t, some o, some i =>
    (match parseJson o with
    | some ov => some (Jv.jobj [("title".toList, Jv.jstr t),
        ("outline".toList, ov), ("intro".toList, Jv.jstr i)])
    | none => none)
  | _, _, _ => none

/-- `main` of `generate_fixed_v2.py`: parse the cleaned text; on
failure, only when all three quoted keys occur in the *cleaned* text
attempt reconstruction from the cleaned text, else (or when it fails)
report the template fallback. -/
def mainResultV2 (topic tone raw : Str) : Outcome :=
  let cleaned := fixJsonV2 raw
  match parseJson cleaned with
  | some v => Outcome.success v
  | none =>
    if pyContains titleKey cleaned && pyContains outlineKey cleaned
        && pyContains introKey cleaned then
      match reconstructV2 cleaned with
      | some r => Outcome.reconstructed r
      | none => Outcome.fallback (fallbackRecord topic tone)
    else Outcome.fallback (fallbackRecord topic tone)

/-! ### `extract_json_from_text` of `generate_alternative.py` -/

/-- Not a brace. -/
def nonBrace (c : Char) : Bool := !(c = '{' || c = '}')

/-- Match the `(?:\{[^{}]*\}[^{}]*)*\}` tail of the candidate pattern
`\{[^{}]*(?:\{[^{}]*\}[^{}]*)*\}`.  At a `}` the group cannot iterate
and the final `}` matches; at a `{` the group must iterate (consuming a
depth-two block), and `[^{}]*` cannot absorb braces, so the match is
deterministic exactly as CPython resolves it. -/
def braceGroups : Nat → Str → Option (Str × Str)
  | 0, _ => none
  | Nat.succ f, s =>
    match s with
    | '}' :: rest => some (['}'], rest)
    | '{' :: rest =>
      (match rest.dropWhile nonBrace with
      | '}' :: r2 =>
        (match braceGroups f (r2.dropWhile nonBrace) with
        | some (m, r3) =>
          some ('{' :: rest.takeWhile nonBrace ++ '}' :: r2.takeWhile nonBrace
            ++ m, r3)
        | none => none)
      | _ => none)
    | _ => none

/-- Try the candidate pattern at the current position. -/
def tryMatchBrace (fuel : Nat) (s : Str) : Option (Str × Str) :=
  match s with
  | '{' :: rest =>
    (match braceGroups fuel (rest.dropWhile nonBrace) with
    | some (m, r) => some ('{' :: rest.takeWhile nonBrace ++ m, r)
    | none => none)
  | _ => none

/-- `re.findall`: leftmost non-overlapping matches, resuming after each
match and advancing one position on failure. -/
def findallBrace : Nat → Str → List Str
  | 0, _ => []
  | Nat.succ f, s =>
    match s with
    | [] => []
    | c :: rest =>
      (match tryMatchBrace (Nat.succ f) (c :: rest) with
      | some (m, r) => m :: findallBrace f r
      | none => findallBrace f rest)

/-- `re.findall(r'\{[^{}]*(?:\{[^{}]*\}[^{}]*)*\}', s)`. -/
def pyFindallJson (s : Str) : List Str := findallBrace (s.length + 1) s

/-- The candidate loop of `extract_json_from_text`: return the first
candidate that parses to a dict containing the key `'title'`. -/
def tryCandidates : List Str → Option Jv
  | [] => none
  | m :: rest =>
    (match parseJson m with
    | some v => if hasKey v ("title".toList) then some v else tryCandidates rest
    | none => tryCandidates rest)

/-- `extract_json_from_text` of `generate_alternative.py` (lines
35-50). -/
def extractJsonFromText (s : Str) : Option Jv :=
  tryCandidates (pyFindallJson s)

/-! ### `json.dumps` on schema records -/

/-- One character of a `json.dumps` string with `ensure_ascii=True`. -/
def escJsonChar (c : Char) : Str :=
  if c = '"' then ['\\', '"']
  else if c = '\\' then ['\\', '\\']
  else if c = '\n' then ['\\', 'n']
  else if c = '\t' then ['\\', 't']
  else if c = '\r' then ['\\', 'r']
  else if c = '\x08' then ['\\', 'b']
  else if c = '\x0c' then ['\\', 'f']
  else if c.toNat < 0x20 ∨ 0x7e < c.toNat then
    (if c.toNat < 0x10000 then '\\' :: 'u' :: toHex4 c.toNat
    else '\\' :: 'u' :: toHex4 (0xd800 + (c.toNat - 0x10000) / 0x400)
      ++ '\\' :: 'u' :: toHex4 (0xdc00 + (c.toNat - 0x10000) % 0x400))
  else [c]
where
  hexDigit (n : Nat) : Char :=
    if n < 10 then Char.ofNat ('0'.toNat + n) else Char.ofNat ('a'.toNat + n - 10)
  toHex4 (n : Nat) : Str :=
    [hexDigit (n / 4096 % 16), hexDigit (n / 256 % 16),
      hexDigit (n / 16 % 16), hexDigit (n % 16)]

/-- `json.dumps` escaping of a whole string body. -/
def escJson (s : Str) : Str := s.foldr (fun c acc => escJsonChar c ++ acc) []

/-- `json.dumps` of a string. -/
def dumpsStr (s : Str) : Str := '"' :: escJson s ++ ['"']

/-- `', '.join` of dumped outline items. -/
def serOuts : List Str → Str
  | [] => []
  | [x] => dumpsStr x
  | x :: xs => dumpsStr x ++ ',' :: ' ' :: serOuts xs

/-- `json.dumps` (default separators) of the record
`{"title": t, "outline": outs, "intro": i}`. -/
def serializeRecord (t : Str) (outs : List Str) (i : Str) : Str :=
  "\x7b\"title\": ".toList ++ (dumpsStr t ++ (", \"outline\": [".toList
    ++ (serOuts outs ++ ("], \"intro\": ".toList
    ++ (dumpsStr i ++ "\x7d".toList)))))

/-- The parsed value of a schema record. -/
def recordJv (t : Str) (outs : List Str) (i : Str) : Jv :=
  Jv.jobj [("title".toList, Jv.jstr t),
    ("outline".toList, Jv.jarr (outs.map Jv.jstr)),
    ("intro".toList, Jv.jstr i)]

example : serializeRecord ("A".toList) ["B".toList, "C".toList] "D".toList
    = "\x7b\"title\": \"A\", \"outline\": [\"B\", \"C\"], \"intro\": \"D\"\x7d".toList := rfl
example : parseJson (serializeRecord ("A".toList) ["B".toList] "C".toList)
    = some (recordJv ("A".toList) ["B".toList] "C".toList) := rfl

/-! ### General lemmas about the embedded stages -/

theorem getLast?_cons_ne {a : Char} {l : Str} (h : l ≠ []) :
    (a :: l).getLast? = l.getLast? := by
  have e : a :: l = [a] ++ l := rfl
  rw [e, List.getLast?_append_of_ne_nil _ h]

theorem dropWhile_append_of_all {p : Char → Bool} (w s : Str)
    (hw : ∀ x ∈ w, p x = true) : (w ++ s).dropWhile p = s.dropWhile p := by
  induction w with
  | nil => rfl
  | cons x w ih =>
    have hx : p x = true := hw x (List.mem_cons_self x w)
    simp only [List.cons_append, List.dropWhile_cons, hx, if_true]
    exact ih fun y hy => hw y (List.mem_cons_of_mem x hy)

theorem dropWhile_append_last {p : Char → Bool} (l : Str) {c : Char}
    (hc : p c = false) : ∃ m, (l ++ [c]).dropWhile p = m ++ [c] := by
  induction l with
  | nil => exact ⟨[], by simp [List.dropWhile_cons, hc]⟩
  | cons a l ih =>
    by_cases ha : p a = true
    · simpa [List.dropWhile_cons, ha] using ih
    · exact ⟨a :: l, by simp [List.dropWhile_cons, ha]⟩

theorem pyStrip_head_nonws {s : Str} {c : Char} (h : s.head? = some c)
    (hc : isPyWs c = false) : (pyStrip s).head? = some c := by
  rcases s with _ | ⟨a, rest⟩
  · simp at h
  · have ha : a = c := by simpa using h
    subst ha
    unfold pyStrip
    rw [List.dropWhile_cons, hc]
    simp only [Bool.false_eq_true, if_false, List.reverse_cons]
    obtain ⟨m, hm⟩ := dropWhile_append_last (p := isPyWs) rest.reverse hc
    rw [hm, List.reverse_append]
    rfl

theorem pyStrip_eq_self {s : Str} {a b : Char} (ha : s.head? = some a)
    (hA : isPyWs a = false) (hb : s.getLast? = some b)
    (hB : isPyWs b = false) : pyStrip s = s := by
  have h1 : s.dropWhile isPyWs = s := by
    rcases s with _ | ⟨x, rest⟩
    · rfl
    · have : x = a := by simpa using ha
      subst this
      rw [List.dropWhile_cons, hA]
      simp
  have h2 : s.reverse.dropWhile isPyWs = s.reverse := by
    have hrev : s.reverse.head? = some b := by
      rw [List.head?_reverse]; exact hb
    rcases hr : s.reverse with _ | ⟨x, rest⟩
    · rfl
    · have : x = b := by rw [hr] at hrev; simpa using hrev
      subst this
      rw [List.dropWhile_cons, hB]
      simp
  unfold pyStrip
  rw [h1, h2, List.reverse_reverse]

/-! Lemmas about the trailing-comma scanner. -/

theorem rtcGo_pending_ne_nil : ∀ (s buf : Str), rtcGo (some buf) s ≠ [] := by
  intro s
  induction s with
  | nil => intro buf; simp [rtcGo]
  | cons c rest ih =>
    intro buf
    by_cases hw : isPyWs c = true
    · simpa [rtcGo, hw] using ih (buf ++ [c])
    · by_cases hc : isCloseCh c = true
      · simp [rtcGo, hw, hc]
      · by_cases hcm : c = ','
        · subst hcm
          have e1 : isPyWs ',' = false := by decide
          have e2 : isCloseCh ',' = false := by decide
          simp [rtcGo, e1, e2]
        · simp [rtcGo, hw, hc, hcm]

theorem rtcGo_none_ne_nil {s : Str} (h : s ≠ []) : rtcGo none s ≠ [] := by
  rcases s with _ | ⟨c, rest⟩
  · exact absurd rfl h
  · by_cases hcm : c = ','
    · subst hcm
      have e1 : isPyWs ',' = false := by decide
      simpa [rtcGo, e1] using rtcGo_pending_ne_nil rest []
    · simp [rtcGo, hcm]

theorem close_not_ws {c : Char} (h : isCloseCh c = true) : isPyWs c = false := by
  by_cases h1 : c = '}'
  · subst h1; decide
  · by_cases h2 : c = ']'
    · subst h2; decide
    · exfalso
      unfold isCloseCh at h
      simp [h1, h2] at h

theorem rtc_head_curly {s : Str} (h : s.head? = some '{') :
    (rtcGo none s).head? = some '{' := by
  rcases s with _ | ⟨c, rest⟩
  · simp at h
  · have : c = '{' := by simpa using h
    subst this
    simp [rtcGo]

theorem rtc_getLast_close : ∀ (s : Str), s.getLast? = some '}' →
    (rtcGo none s).getLast? = some '}'
      ∧ ∀ buf, (rtcGo (some buf) s).getLast? = some '}' := by
  intro s
  induction s with
  | nil => intro h; simp at h
  | cons c rest ih =>
    intro h
    by_cases hr : rest = []
    · subst hr
      have hc : c = '}' := by simpa using h
      subst hc
      constructor
      · simp [rtcGo, isCloseCh]
      · intro buf
        simp [rtcGo, isPyWs, isCloseCh]
    · have h' : rest.getLast? = some '}' := by
        rwa [getLast?_cons_ne hr] at h
      obtain ⟨ih1, ih2⟩ := ih h'
      constructor
      · by_cases hcm : c = ','
        · simpa [rtcGo, hcm] using ih2 []
        · rw [show rtcGo none (c :: rest) = c :: rtcGo none rest by
            simp [rtcGo, hcm]]
          rw [getLast?_cons_ne (rtcGo_none_ne_nil hr)]
          exact ih1
      · intro buf
        by_cases hw : isPyWs c = true
        · simpa [rtcGo, hw] using ih2 (buf ++ [c])
        · by_cases hcl : isCloseCh c = true
          · rw [show rtcGo (some buf) (c :: rest) = c :: rtcGo none rest by
              simp [rtcGo, hw, hcl]]
            rw [getLast?_cons_ne (rtcGo_none_ne_nil hr)]
            exact ih1
          · by_cases hcm : c = ','
            · subst hcm
              have e1 : isPyWs ',' = false := by decide
              have e2 : isCloseCh ',' = false := by decide
              rw [show rtcGo (some buf) (',' :: rest)
                  = ',' :: buf ++ rtcGo (some []) rest by
                simp [rtcGo, e1, e2]]
              rw [List.getLast?_append_of_ne_nil _ (rtcGo_pending_ne_nil rest [])]
              exact ih2 []
            · rw [show rtcGo (some buf) (c :: rest)
                  = ',' :: buf ++ c :: rtcGo none rest by
                simp [rtcGo, hw, hcl, hcm]]
              rw [List.getLast?_append_of_ne_nil _ (by simp)]
              rw [getLast?_cons_ne (rtcGo_none_ne_nil hr)]
              exact ih1

theorem rtc_no_comma_append : ∀ (a b : Str), (',' ∈ a → False) →
    rtcGo none (a ++ b) = a ++ rtcGo none b := by
  intro a
  induction a with
  | nil => intro b _; rfl
  | cons c rest ih =>
    intro b h
    have hcm : ¬ c = ',' := fun hc => h (hc ▸ List.mem_cons_self c rest)
    simp only [List.cons_append]
    rw [show rtcGo none (c :: (rest ++ b)) = c :: rtcGo none (rest ++ b) by
      simp [rtcGo, hcm]]
    rw [ih b fun hm => h (List.mem_cons_of_mem c hm)]

theorem rtcGo_pending_wsclose : ∀ (w : Str) (buf : Str) {c : Char} (rest : Str),
    (∀ x ∈ w, isPyWs x = true) → isCloseCh c = true →
    rtcGo (some buf) (w ++ c :: rest) = c :: rtcGo none rest := by
  intro w
  induction w with
  | nil =>
    intro buf c rest _ hc
    have hw : isPyWs c = false := close_not_ws hc
    simp [rtcGo, hw, hc]
  | cons x w ih =>
    intro buf c rest hw hc
    have hx : isPyWs x = true := hw x (List.mem_cons_self x w)
    simp only [List.cons_append]
    rw [show rtcGo (some buf) (x :: (w ++ c :: rest))
        = rtcGo (some (buf ++ [x])) (w ++ c :: rest) by simp [rtcGo, hx]]
    exact ih (buf ++ [x]) rest (fun y hy => hw y (List.mem_cons_of_mem x hy)) hc

theorem matchWsClose_cons_ws {c : Char} (rest : Str) (hc : isPyWs c = true) :
    matchWsClose (c :: rest) = matchWsClose rest := by
  unfold matchWsClose
  rw [List.dropWhile_cons, hc]
  simp

theorem matchWsClose_cons_nonws {c : Char} (rest : Str) (hw : isPyWs c = false) :
    matchWsClose (c :: rest)
      = if isCloseCh c = true then some (c, rest) else none := by
  unfold matchWsClose
  rw [List.dropWhile_cons, hw]
  simp

theorem matchWsClose_wsclose {w : Str} {c : Char} (rest : Str)
    (hw : ∀ x ∈ w, isPyWs x = true) (hc : isCloseCh c = true) :
    matchWsClose (w ++ c :: rest) = some (c, rest) := by
  unfold matchWsClose
  rw [dropWhile_append_of_all w _ hw, List.dropWhile_cons, close_not_ws hc]
  simp [hc]

theorem comma_not_ws : isPyWs ',' = false := by decide

theorem rtcGo_eq_self : ∀ s : Str,
    (hasTCOcc s = false → rtcGo none s = s)
      ∧ (∀ buf, matchWsClose s = none → hasTCOcc s = false →
          rtcGo (some buf) s = ',' :: buf ++ s) := by
  intro s
  induction s with
  | nil =>
    refine ⟨fun _ => rfl, fun buf _ _ => ?_⟩
    simp [rtcGo]
  | cons c rest ih =>
    obtain ⟨ih1, ih2⟩ := ih
    constructor
    · intro h
      by_cases hcm : c = ','
      · subst hcm
        simp only [hasTCOcc, eq_self_iff_true, if_true,
          Bool.or_eq_false_iff] at h
        have hmw : matchWsClose rest = none :=
          Option.not_isSome_iff_eq_none.mp (by simp [h.1])
        rw [show rtcGo none (',' :: rest) = rtcGo (some []) rest by
          simp [rtcGo]]
        rw [ih2 [] hmw h.2]
        simp
      · simp only [hasTCOcc, if_neg hcm, Bool.false_or] at h
        rw [show rtcGo none (c :: rest) = c :: rtcGo none rest by
          simp [rtcGo, hcm]]
        rw [ih1 h]
    · intro buf hmw h
      by_cases hws : isPyWs c = true
      · have hcm : ¬ c = ',' := by
          intro hc; rw [hc] at hws; exact absurd hws (by decide)
        simp only [hasTCOcc, if_neg hcm, Bool.false_or] at h
        have hmw' : matchWsClose rest = none := by
          rwa [matchWsClose_cons_ws rest hws] at hmw
        rw [show rtcGo (some buf) (c :: rest)
            = rtcGo (some (buf ++ [c])) rest by simp [rtcGo, hws]]
        rw [ih2 (buf ++ [c]) hmw' h]
        simp
      · have hws' : isPyWs c = false := by simpa using hws
        by_cases hcl : isCloseCh c = true
        · exfalso
          rw [matchWsClose_cons_nonws rest hws', if_pos hcl] at hmw
          exact Option.noConfusion hmw
        · by_cases hcm : c = ','
          · subst hcm
            simp only [hasTCOcc, eq_self_iff_true, if_true,
              Bool.or_eq_false_iff] at h
            have hmw' : matchWsClose rest = none :=
              Option.not_isSome_iff_eq_none.mp (by simp [h.1])
            have e2 : isCloseCh ',' = false := by decide
            rw [show rtcGo (some buf) (',' :: rest)
                = ',' :: buf ++ rtcGo (some []) rest by
              simp [rtcGo, comma_not_ws, e2]]
            rw [ih2 [] hmw' h.2]
            simp
          · simp only [hasTCOcc, if_neg hcm, Bool.false_or] at h
            rw [show rtcGo (some buf) (c :: rest)
                = ',' :: buf ++ c :: rtcGo none rest by
              simp [rtcGo, hws, hcl, hcm]]
            rw [ih1 h]

theorem rtc_eq_self {s : Str} (h : hasTCOcc s = false) :
    removeTrailingCommas s = s :=
  (rtcGo_eq_self s).1 h

theorem matchWsClose_isSome_quote (v tail : Str) :
    (matchWsClose (v ++ '"' :: tail)).isSome
      = (matchWsClose (v ++ ['"'])).isSome := by
  unfold matchWsClose
  rw [List.dropWhile_append, List.dropWhile_append]
  by_cases he : (v.dropWhile isPyWs).isEmpty = true
  · have hq : isPyWs '"' = false := by decide
    have hc : isCloseCh '"' = false := by decide
    simp [he, List.dropWhile_cons, hq, hc]
  · simp only [he, if_false, Bool.false_eq_true]
    rcases hd : v.dropWhile isPyWs with _ | ⟨d, t⟩
    · rw [hd] at he; simp at he
    · by_cases hcl : isCloseCh d = true <;> simp [hcl]

theorem hasTCOcc_quoteBarrier (v tail : Str) :
    hasTCOcc (v ++ '"' :: tail)
      = (hasTCOcc (v ++ ['"']) || hasTCOcc tail) := by
  induction v with
  | nil =>
    have hq : ¬ ('"' : Char) = ',' := by decide
    simp [hasTCOcc, hq]
  | cons c v' ih =>
    simp only [List.cons_append, hasTCOcc, List.append_eq]
    rw [ih, matchWsClose_isSome_quote v' tail]
    by_cases hcm : c = ',' <;> simp [hcm, Bool.or_assoc]

theorem collapse_eq_self : ∀ s : Str, hasDQ s = false →
    collapseDoubleQuotes s = s := by
  intro s
  induction s with
  | nil => intro _; rfl
  | cons c tail ih =>
    intro h
    rcases tail with _ | ⟨d, rest⟩
    · rfl
    · rw [show hasDQ (c :: d :: rest)
          = if c = '"' ∧ d = '"' then true else hasDQ (d :: rest) from rfl] at h
      by_cases hq : c = '"' ∧ d = '"'
      · rw [if_pos hq] at h; exact absurd h (by simp)
      · rw [if_neg hq] at h
        rw [show collapseDoubleQuotes (c :: d :: rest)
            = if c = '"' ∧ d = '"' then '"' :: collapseDoubleQuotes rest
              else c :: collapseDoubleQuotes (d :: rest) from rfl]
        rw [if_neg hq, ih h]

theorem withBraces_head (x : Str) : (withBraces x).head? = some '{' := by
  unfold withBraces
  have hs1 : ∃ t, (if x.head? = some '{' then x else '{' :: x) = '{' :: t := by
    by_cases hx : x.head? = some '{'
    · rcases x with _ | ⟨a, t⟩
      · simp at hx
      · have : a = '{' := by simpa using hx
        subst this
        exact ⟨t, by rw [if_pos hx]⟩
    · exact ⟨x, by rw [if_neg hx]⟩
  obtain ⟨t, ht⟩ := hs1
  rw [ht]
  by_cases h2 : ('{' :: t).getLast? = some '}'
  · rw [if_pos h2]; rfl
  · rw [if_neg h2]; rfl

theorem withBraces_last (x : Str) : (withBraces x).getLast? = some '}' := by
  unfold withBraces
  by_cases h2 : (if x.head? = some '{' then x else '{' :: x).getLast? = some '}'
  · rw [if_pos h2]; exact h2
  · rw [if_neg h2]; exact List.getLast?_concat _

theorem fixJsonCorrectly_braces {s : Str}
    (h : ¬ (pyStrip s).head? = some '[') :
    (fixJsonCorrectly s).head? = some '{'
      ∧ (fixJsonCorrectly s).getLast? = some '}' := by
  unfold fixJsonCorrectly
  rw [if_neg (by intro hcon; exact h hcon.1)]
  by_cases hq : (pyContains titleKey (pyStrip s)
      || pyContains outlineKey (pyStrip s)
      || pyContains introKey (pyStrip s)) = true
  · rw [if_pos hq]
    exact ⟨rtc_head_curly (withBraces_head _),
      (rtc_getLast_close _ (withBraces_last _)).1⟩
  · rw [if_neg hq]
    exact ⟨rtc_head_curly (withBraces_head _),
      (rtc_getLast_close _ (withBraces_last _)).1⟩

/-! Cleanliness of record values, and `json.dumps` round-trip facts. -/

/-- A character that `json.dumps` emits verbatim: printable ASCII,
neither a quote nor a backslash. -/
def plainCh (c : Char) : Prop :=
  0x20 ≤ c.toNat ∧ c.toNat ≤ 0x7e ∧ c ≠ '"' ∧ c ≠ '\\'

instance (c : Char) : Decidable (plainCh c) := by
  unfold plainCh
  infer_instance

/-- A record string value that survives the repair stages: plain
characters and no trailing-comma occurrence up to its closing quote. -/
def cleanVal (v : Str) : Prop :=
  (∀ c ∈ v, plainCh c) ∧ hasTCOcc (v ++ ['"']) = false

instance (v : Str) : Decidable (cleanVal v) := by
  unfold cleanVal
  infer_instance

theorem escJsonChar_plain {c : Char} (h : plainCh c) : escJsonChar c = [c] := by
  obtain ⟨h1, h2, h3, h4⟩ := h
  have hn : ¬ c = '\n' := by intro hEq; subst hEq; exact absurd h1 (by decide)
  have ht : ¬ c = '\t' := by intro hEq; subst hEq; exact absurd h1 (by decide)
  have hr' : ¬ c = '\r' := by intro hEq; subst hEq; exact absurd h1 (by decide)
  have hb : ¬ c = '\x08' := by intro hEq; subst hEq; exact absurd h1 (by decide)
  have hf : ¬ c = '\x0c' := by intro hEq; subst hEq; exact absurd h1 (by decide)
  have hnum : ¬ (c.toNat < 0x20 ∨ 0x7e < c.toNat) := by omega
  simp [escJsonChar, h3, h4, hn, ht, hr', hb, hf, hnum]

theorem escJson_plain {v : Str} (h : ∀ c ∈ v, plainCh c) : escJson v = v := by
  induction v with
  | nil => rfl
  | cons c v' ih =>
    have hc : escJsonChar c = [c] := escJsonChar_plain (h c (List.mem_cons_self c v'))
    have : escJson (c :: v') = escJsonChar c ++ escJson v' := rfl
    rw [this, hc, ih fun x hx => h x (List.mem_cons_of_mem c hx)]
    rfl

theorem dumpsStr_plain {v : Str} (h : ∀ c ∈ v, plainCh c) :
    dumpsStr v = '"' :: (v ++ ['"']) := by
  unfold dumpsStr
  rw [escJson_plain h]
  simp

/-- The serialized record in head-normal form. -/
theorem serializeRecord_cons (t : Str) (outs : List Str) (i : Str) :
    serializeRecord t outs i
      = '{' :: '"' :: 't' :: 'i' :: 't' :: 'l' :: 'e' :: '"' :: ':' :: ' ' ::
        (dumpsStr t ++ (',' :: ' ' :: '"' :: 'o' :: 'u' :: 't' :: 'l' :: 'i' ::
          'n' :: 'e' :: '"' :: ':' :: ' ' :: '[' ::
          (serOuts outs ++ (']' :: ',' :: ' ' :: '"' :: 'i' :: 'n' :: 't' ::
            'r' :: 'o' :: '"' :: ':' :: ' ' :: (dumpsStr i ++ ['}']))))) := rfl

theorem serializeRecord_head (t : Str) (outs : List Str) (i : Str) :
    (serializeRecord t outs i).head? = some '{' := by
  rw [serializeRecord_cons]
  rfl

theorem serializeRecord_getLast (t : Str) (outs : List Str) (i : Str) :
    (serializeRecord t outs i).getLast? = some '}' := by
  unfold serializeRecord
  rw [show ("\x7d".toList) = ['}'] from rfl]
  simp only [← List.append_assoc]
  exact List.getLast?_concat _

theorem serializeRecord_has_title (t : Str) (outs : List Str) (i : Str) :
    pyContains titleKey (serializeRecord t outs i) = true := by
  rw [serializeRecord_cons]
  rfl

theorem hasTCOcc_cons_ne {c : Char} (s : Str) (h : ¬ c = ',') :
    hasTCOcc (c :: s) = hasTCOcc s := by
  simp [hasTCOcc, h]

theorem hasTCOcc_cons_comma (s : Str) :
    hasTCOcc (',' :: s) = ((matchWsClose s).isSome || hasTCOcc s) := by
  simp [hasTCOcc]

theorem hasTCOcc_append_nocomma {a : Str} (b : Str) (h : ',' ∈ a → False) :
    hasTCOcc (a ++ b) = hasTCOcc b := by
  induction a with
  | nil => rfl
  | cons c a' ih =>
    have hc : ¬ c = ',' := fun hEq => h (hEq ▸ List.mem_cons_self c a')
    rw [List.cons_append, hasTCOcc_cons_ne _ hc,
      ih fun hm => h (List.mem_cons_of_mem c hm)]

theorem serOuts_cons_shape (y : Str) (tl : List Str) :
    ∃ z, serOuts (y :: tl) = '"' :: z := by
  rcases tl with _ | ⟨w, tl'⟩
  · exact ⟨escJson y ++ ['"'], rfl⟩
  · exact ⟨escJson y ++ ['"'] ++ (',' :: ' ' :: serOuts (w :: tl')), by
      simp [serOuts, dumpsStr]⟩

theorem hasTCOcc_serOuts (outs : List Str) (rest : Str)
    (h : ∀ o ∈ outs, cleanVal o) :
    hasTCOcc (serOuts outs ++ ']' :: rest) = hasTCOcc rest := by
  induction outs with
  | nil =>
    rw [show serOuts [] = [] from rfl, List.nil_append,
      hasTCOcc_cons_ne _ (by decide)]
  | cons x xs ih =>
    have hx := h x (List.mem_cons_self x xs)
    rcases xs with _ | ⟨y, tl⟩
    · rw [show serOuts [x] = dumpsStr x from rfl, dumpsStr_plain hx.1]
      rw [show ('"' :: (x ++ ['"'])) ++ ']' :: rest
          = '"' :: (x ++ '"' :: ']' :: rest) by simp]
      rw [hasTCOcc_cons_ne _ (by decide), hasTCOcc_quoteBarrier, hx.2,
        hasTCOcc_cons_ne _ (by decide)]
      simp
    · rw [show serOuts (x :: y :: tl)
          = dumpsStr x ++ ',' :: ' ' :: serOuts (y :: tl) from rfl,
        dumpsStr_plain hx.1]
      rw [show ('"' :: (x ++ ['"'])) ++ ',' :: ' ' :: serOuts (y :: tl)
            ++ ']' :: rest
          = '"' :: (x ++ '"' :: ',' :: ' ' :: (serOuts (y :: tl)
            ++ ']' :: rest)) by simp]
      rw [hasTCOcc_cons_ne _ (by decide), hasTCOcc_quoteBarrier, hx.2]
      obtain ⟨z, hz⟩ := serOuts_cons_shape y tl
      rw [hasTCOcc_cons_comma, matchWsClose_cons_ws _ (by decide)]
      rw [show serOuts (y :: tl) ++ ']' :: rest = '"' :: (z ++ ']' :: rest) by
        rw [hz]; simp]
      rw [matchWsClose_cons_nonws _ (by decide), if_neg (by decide)]
      rw [hasTCOcc_cons_ne _ (by decide)]
      rw [show '"' :: (z ++ ']' :: rest) = serOuts (y :: tl) ++ ']' :: rest by
        rw [hz]; simp]
      rw [ih fun o ho => h o (List.mem_cons_of_mem x ho)]
      simp

/-- The serialized record with plain values, fully normalized so that
each value appears as `v ++ '"' :: tail`. -/
theorem serializeRecord_norm (t : Str) (outs : List Str) (i : Str)
    (ht : ∀ c ∈ t, plainCh c) (hi : ∀ c ∈ i, plainCh c) :
    serializeRecord t outs i
      = '{' :: '"' :: 't' :: 'i' :: 't' :: 'l' :: 'e' :: '"' :: ':' :: ' ' ::
        '"' :: (t ++ '"' :: ',' :: ' ' :: '"' :: 'o' :: 'u' :: 't' :: 'l' ::
          'i' :: 'n' :: 'e' :: '"' :: ':' :: ' ' :: '[' ::
          (serOuts outs ++ ']' :: ',' :: ' ' :: '"' :: 'i' :: 'n' :: 't' ::
            'r' :: 'o' :: '"' :: ':' :: ' ' :: '"' ::
            (i ++ '"' :: '}' :: []))) := by
  rw [serializeRecord_cons, dumpsStr_plain ht, dumpsStr_plain hi]
  simp

theorem hasTCOcc_serializeRecord (t : Str) (outs : List Str) (i : Str)
    (ht : cleanVal t) (ho : ∀ o ∈ outs, cleanVal o) (hi : cleanVal i) :
    hasTCOcc (serializeRecord t outs i) = false := by
  rw [serializeRecord_norm t outs i ht.1 hi.1]
  rw [hasTCOcc_cons_ne _ (by decide), hasTCOcc_cons_ne _ (by decide),
    hasTCOcc_cons_ne _ (by decide), hasTCOcc_cons_ne _ (by decide),
    hasTCOcc_cons_ne _ (by decide), hasTCOcc_cons_ne _ (by decide),
    hasTCOcc_cons_ne _ (by decide), hasTCOcc_cons_ne _ (by decide),
    hasTCOcc_cons_ne _ (by decide), hasTCOcc_cons_ne _ (by decide),
    hasTCOcc_cons_ne _ (by decide)]
  rw [hasTCOcc_quoteBarrier, ht.2, Bool.false_or]
  rw [hasTCOcc_cons_comma, matchWsClose_cons_ws _ (by decide),
    matchWsClose_cons_nonws _ (by decide), if_neg (by decide)]
  rw [show (none : Option (Char × Str)).isSome = false from rfl, Bool.false_or]
  rw [hasTCOcc_cons_ne _ (by decide), hasTCOcc_cons_ne _ (by decide),
    hasTCOcc_cons_ne _ (by decide), hasTCOcc_cons_ne _ (by decide),
    hasTCOcc_cons_ne _ (by decide), hasTCOcc_cons_ne _ (by decide),
    hasTCOcc_cons_ne _ (by decide), hasTCOcc_cons_ne _ (by decide),
    hasTCOcc_cons_ne _ (by decide), hasTCOcc_cons_ne _ (by decide),
    hasTCOcc_cons_ne _ (by decide), hasTCOcc_cons_ne _ (by decide),
    hasTCOcc_cons_ne _ (by decide)]
  rw [hasTCOcc_serOuts outs _ ho]
  rw [hasTCOcc_cons_comma, matchWsClose_cons_ws _ (by decide),
    matchWsClose_cons_nonws _ (by decide), if_neg (by decide)]
  rw [show (none : Option (Char × Str)).isSome = false from rfl, Bool.false_or]
  rw [hasTCOcc_cons_ne _ (by decide), hasTCOcc_cons_ne _ (by decide),
    hasTCOcc_cons_ne _ (by decide), hasTCOcc_cons_ne _ (by decide),
    hasTCOcc_cons_ne _ (by decide), hasTCOcc_cons_ne _ (by decide),
    hasTCOcc_cons_ne _ (by decide), hasTCOcc_cons_ne _ (by decide),
    hasTCOcc_cons_ne _ (by decide), hasTCOcc_cons_ne _ (by decide),
    hasTCOcc_cons_ne _ (by decide)]
  rw [hasTCOcc_quoteBarrier, hi.2]
  rfl

/-! Parsing the serialized record back. -/

theorem skipJWs_cons_nonws {c : Char} (s : Str) (h : isJWs c = false) :
    skipJWs (c :: s) = c :: s := by
  unfold skipJWs
  rw [List.dropWhile_cons, h]
  simp

theorem skipJWs_cons_ws {c : Char} (s : Str) (h : isJWs c = true) :
    skipJWs (c :: s) = skipJWs s := by
  unfold skipJWs
  rw [List.dropWhile_cons, h]
  simp

theorem parseStringBody_plain : ∀ (v rest : Str), (∀ c ∈ v, plainCh c) →
    parseStringBody (v ++ '"' :: rest) = some (v, rest) := by
  intro v
  induction v with
  | nil =>
    intro rest _
    rw [List.nil_append, parseStringBody.eq_def]
    simp
  | cons c v' ih =>
    intro rest h
    obtain ⟨hp1, hp2, hp3, hp4⟩ := h c (List.mem_cons_self c v')
    have hctl : ¬ c.toNat < 0x20 := by omega
    rw [List.cons_append, parseStringBody.eq_def]
    simp only [hp3, hp4, hctl, if_false, ite_false]
    rw [ih rest fun x hx => h x (List.mem_cons_of_mem c hx)]
    rfl

/-- One-step unfolding of the value parser. -/
theorem parseGo_val_eq (f : Nat) (s : Str) :
    parseGo (f + 1) PTask.val s
      = (match skipJWs s with
        | '"' :: rest =>
          (match parseStringBody rest with
          | some (str, r) => some (Jv.jstr str, r)
          | none => none)
        | '[' :: rest =>
          (match skipJWs rest with
          | ']' :: r => some (Jv.jarr [], r)
          | s' => parseGo f (PTask.elems []) s')
        | '{' :: rest =>
          (match skipJWs rest with
          | '}' :: r => some (Jv.jobj [], r)
          | s' => parseGo f (PTask.members []) s')
        | 't' :: 'r' :: 'u' :: 'e' :: r => some (Jv.jbool true, r)
        | 'f' :: 'a' :: 'l' :: 's' :: 'e' :: r => some (Jv.jbool false, r)
        | 'n' :: 'u' :: 'l' :: 'l' :: r => some (Jv.jnull, r)
        | s' =>
          (match lexNumber s' with
          | some (txt, r) => some (Jv.jnum txt, r)
          | none => none)) := rfl

/-- One-step unfolding of the array-element loop. -/
theorem parseGo_elems_eq (f : Nat) (acc : List Jv) (s : Str) :
    parseGo (f + 1) (PTask.elems acc) s
      = (match parseGo f PTask.val s with
        | none => none
        | some (v, r) =>
          (match skipJWs r with
          | ',' :: r2 => parseGo f (PTask.elems (v :: acc)) r2
          | ']' :: r2 => some (Jv.jarr (acc.reverse ++ [v]), r2)
          | _ => none)) := rfl

/-- One-step unfolding of the object-member loop. -/
theorem parseGo_members_eq (f : Nat) (acc : List (Str × Jv)) (s : Str) :
    parseGo (f + 1) (PTask.members acc) s
      = (match s with
        | '"' :: rest =>
          (match parseStringBody rest with
          | none => none
          | some (k, r1) =>
            (match skipJWs r1 with
            | ':' :: r2 =>
              (match parseGo f PTask.val r2 with
              | none => none
              | some (v, r3) =>
                (match skipJWs r3 with
                | ',' :: r4 =>
                  parseGo f (PTask.members (objSet acc k v)) (skipJWs r4)
                | '}' :: r4 => some (Jv.jobj (objSet acc k v), r4)
                | _ => none))
            | _ => none))
        | _ => none) := rfl

theorem parseGo_val_str (f : Nat) (w v rest : Str)
    (hw : ∀ x ∈ w, isJWs x = true) (hv : ∀ c ∈ v, plainCh c) :
    parseGo (f + 1) PTask.val (w ++ '"' :: (v ++ '"' :: rest))
      = some (Jv.jstr v, rest) := by
  have hq : isJWs '"' = false := by decide
  have hskip : skipJWs (w ++ '"' :: (v ++ '"' :: rest))
      = '"' :: (v ++ '"' :: rest) := by
    unfold skipJWs
    rw [dropWhile_append_of_all w _ hw, List.dropWhile_cons, hq]
    simp
  rw [parseGo_val_eq, hskip]
  show (match parseStringBody (v ++ '"' :: rest) with
    | some (str, r) => some (Jv.jstr str, r)
    | none => none) = _
  rw [parseStringBody_plain v rest hv]

/-- String value after a single-space separator. -/
theorem parseGo_val_str_sp (f : Nat) (v rest : Str)
    (hv : ∀ c ∈ v, plainCh c) :
    parseGo (f + 1) PTask.val (' ' :: '"' :: (v ++ '"' :: rest))
      = some (Jv.jstr v, rest) := by
  have e : (' ' :: '"' :: (v ++ '"' :: rest) : Str)
      = [' '] ++ '"' :: (v ++ '"' :: rest) := rfl
  rw [e, parseGo_val_str f [' '] v rest (by decide) hv]

theorem parseGo_elems_serOuts : ∀ (xs : List Str) (x : Str) (f : Nat)
    (acc : List Jv) (w rest : Str),
    xs.length + 2 ≤ f → (∀ y ∈ w, isJWs y = true) →
    (∀ c ∈ x, plainCh c) → (∀ o ∈ xs, ∀ c ∈ o, plainCh c) →
    parseGo f (PTask.elems acc) (w ++ (serOuts (x :: xs) ++ ']' :: rest))
      = some (Jv.jarr (acc.reverse ++ (x :: xs).map Jv.jstr), rest) := by
  intro xs
  induction xs with
  | nil =>
    intro x f acc w rest hf hw hx _
    obtain ⟨g, rfl⟩ : ∃ g, f = g + 1 + 1 := ⟨f - 2, by omega⟩
    have hshape : w ++ (serOuts [x] ++ ']' :: rest)
        = w ++ '"' :: (x ++ '"' :: (']' :: rest)) := by
      rw [show serOuts [x] = dumpsStr x from rfl, dumpsStr_plain hx]
      simp
    rw [hshape, parseGo_elems_eq]
    rw [parseGo_val_str g w x (']' :: rest) hw hx]
    show (match skipJWs (']' :: rest) with
      | ',' :: r2 => parseGo (g + 1) (PTask.elems (Jv.jstr x :: acc)) r2
      | ']' :: r2 => some (Jv.jarr (acc.reverse ++ [Jv.jstr x]), r2)
      | _ => none) = _
    rw [skipJWs_cons_nonws _ (by decide)]
    rfl
  | cons y xs' ih =>
    intro x f acc w rest hf hw hx ho
    obtain ⟨g, rfl⟩ : ∃ g, f = g + 1 + 1 := ⟨f - 2, by omega⟩
    have hshape : w ++ (serOuts (x :: y :: xs') ++ ']' :: rest)
        = w ++ '"' :: (x ++ '"' :: (',' :: ' ' ::
            (serOuts (y :: xs') ++ ']' :: rest))) := by
      rw [show serOuts (x :: y :: xs')
          = dumpsStr x ++ ',' :: ' ' :: serOuts (y :: xs') from rfl,
        dumpsStr_plain hx]
      simp
    rw [hshape, parseGo_elems_eq]
    rw [parseGo_val_str g w x _ hw hx]
    show (match skipJWs (',' :: ' ' :: (serOuts (y :: xs') ++ ']' :: rest)) with
      | ',' :: r2 => parseGo (g + 1) (PTask.elems (Jv.jstr x :: acc)) r2
      | ']' :: r2 => some (Jv.jarr (acc.reverse ++ [Jv.jstr x]), r2)
      | _ => none) = _
    rw [skipJWs_cons_nonws _ (by decide)]
    show parseGo (g + 1) (PTask.elems (Jv.jstr x :: acc))
      ([' '] ++ (serOuts (y :: xs') ++ ']' :: rest)) = _
    rw [ih y (g + 1) (Jv.jstr x :: acc) [' '] rest
      (by simp only [List.length_cons] at hf ⊢; omega)
      (by decide) (ho y (List.mem_cons_self y xs'))
      (fun o hmo => ho o (List.mem_cons_of_mem y hmo))]
    simp

theorem parseGo_val_objQ (f : Nat) (X : Str) :
    parseGo (f + 1) PTask.val ('{' :: '"' :: X)
      = parseGo f (PTask.members []) ('"' :: X) := by
  rw [parseGo_val_eq, skipJWs_cons_nonws _ (by decide)]
  show (match skipJWs ('"' :: X) with
    | '}' :: r => some (Jv.jobj [], r)
    | s' => parseGo f (PTask.members []) s') = _
  rw [skipJWs_cons_nonws _ (by decide)]
  simp

theorem parseGo_members_key (f : Nat) (acc : List (Str × Jv)) (k rest : Str)
    (hk : ∀ c ∈ k, plainCh c) :
    parseGo (f + 1) (PTask.members acc)
        ('"' :: (k ++ '"' :: ':' :: ' ' :: rest))
      = (match parseGo f PTask.val (' ' :: rest) with
        | none => none
        | some (v, r3) =>
          (match skipJWs r3 with
          | ',' :: r4 => parseGo f (PTask.members (objSet acc k v)) (skipJWs r4)
          | '}' :: r4 => some (Jv.jobj (objSet acc k v), r4)
          | _ => none)) := by
  rw [parseGo_members_eq]
  show (match parseStringBody (k ++ '"' :: ':' :: ' ' :: rest) with
    | none => none
    | some (k', r1) =>
      (match skipJWs r1 with
      | ':' :: r2 =>
        (match parseGo f PTask.val r2 with
        | none => none
        | some (v, r3) =>
          (match skipJWs r3 with
          | ',' :: r4 => parseGo f (PTask.members (objSet acc k' v)) (skipJWs r4)
          | '}' :: r4 => some (Jv.jobj (objSet acc k' v), r4)
          | _ => none))
      | _ => none)) = _
  rw [parseStringBody_plain k _ hk]
  show (match skipJWs (':' :: ' ' :: rest) with
    | ':' :: r2 =>
      (match parseGo f PTask.val r2 with
      | none => none
      | some (v, r3) =>
        (match skipJWs r3 with
        | ',' :: r4 => parseGo f (PTask.members (objSet acc k v)) (skipJWs r4)
        | '}' :: r4 => some (Jv.jobj (objSet acc k v), r4)
        | _ => none))
    | _ => none) = _
  rw [skipJWs_cons_nonws _ (by decide)]
  simp

theorem parseGo_val_arr_sp (f : Nat) (outs : List Str) (rest : Str)
    (hf : outs.length + 1 ≤ f) (ho : ∀ o ∈ outs, ∀ c ∈ o, plainCh c) :
    parseGo (f + 1) PTask.val (' ' :: '[' :: (serOuts outs ++ ']' :: rest))
      = some (Jv.jarr (outs.map Jv.jstr), rest) := by
  have hskip : skipJWs (' ' :: '[' :: (serOuts outs ++ ']' :: rest))
      = '[' :: (serOuts outs ++ ']' :: rest) := by
    rw [skipJWs_cons_ws _ (by decide), skipJWs_cons_nonws _ (by decide)]
  rw [parseGo_val_eq, hskip]
  show (match skipJWs (serOuts outs ++ ']' :: rest) with
    | ']' :: r => some (Jv.jarr [], r)
    | s' => parseGo f (PTask.elems []) s') = _
  rcases outs with _ | ⟨o, os⟩
  · rw [show serOuts [] ++ ']' :: rest = ']' :: rest from rfl]
    rw [skipJWs_cons_nonws _ (by decide)]
    rfl
  · obtain ⟨z, hz⟩ := serOuts_cons_shape o os
    have hform : serOuts (o :: os) ++ ']' :: rest = '"' :: (z ++ ']' :: rest) := by
      rw [hz]
      simp
    rw [hform, skipJWs_cons_nonws _ (by decide)]
    show parseGo f (PTask.elems []) ('"' :: (z ++ ']' :: rest)) = _
    rw [show ('"' :: (z ++ ']' :: rest) : Str)
        = [] ++ (serOuts (o :: os) ++ ']' :: rest) by rw [hform]; rfl]
    rw [parseGo_elems_serOuts os o f [] [] rest
      (by simp only [List.length_cons] at hf; omega) (by simp)
      (ho o (List.mem_cons_self o os))
      (fun x hx => ho x (List.mem_cons_of_mem o hx))]
    simp

theorem parseGo_member_str (f : Nat) (acc : List (Str × Jv)) (k v rest : Str)
    (hk : ∀ c ∈ k, plainCh c) (hv : ∀ c ∈ v, plainCh c) :
    parseGo (f + 1 + 1) (PTask.members acc)
        ('"' :: (k ++ '"' :: ':' :: ' ' ::
          ('"' :: (v ++ '"' :: ',' :: ' ' :: '"' :: rest))))
      = parseGo (f + 1) (PTask.members (objSet acc k (Jv.jstr v)))
          ('"' :: rest) := by
  rw [parseGo_members_key (f + 1) acc k _ hk]
  rw [parseGo_val_str_sp f v _ hv]
  show (match skipJWs (',' :: ' ' :: '"' :: rest) with
    | ',' :: r4 => parseGo (f + 1)
        (PTask.members (objSet acc k (Jv.jstr v))) (skipJWs r4)
    | '}' :: r4 => some (Jv.jobj (objSet acc k (Jv.jstr v)), r4)
    | _ => none) = _
  rw [skipJWs_cons_nonws _ (by decide)]
  show parseGo (f + 1) (PTask.members (objSet acc k (Jv.jstr v)))
    (skipJWs (' ' :: '"' :: rest)) = _
  rw [skipJWs_cons_ws _ (by decide), skipJWs_cons_nonws _ (by decide)]

theorem parseGo_member_arr (f : Nat) (acc : List (Str × Jv)) (k : Str)
    (outs : List Str) (rest : Str) (hf : outs.length + 1 ≤ f)
    (hk : ∀ c ∈ k, plainCh c) (ho : ∀ o ∈ outs, ∀ c ∈ o, plainCh c) :
    parseGo (f + 1 + 1) (PTask.members acc)
        ('"' :: (k ++ '"' :: ':' :: ' ' ::
          ('[' :: (serOuts outs ++ ']' :: ',' :: ' ' :: '"' :: rest))))
      = parseGo (f + 1)
          (PTask.members (objSet acc k (Jv.jarr (outs.map Jv.jstr))))
          ('"' :: rest) := by
  rw [parseGo_members_key (f + 1) acc k _ hk]
  rw [parseGo_val_arr_sp f outs _ hf ho]
  show (match skipJWs (',' :: ' ' :: '"' :: rest) with
    | ',' :: r4 => parseGo (f + 1)
        (PTask.members (objSet acc k (Jv.jarr (outs.map Jv.jstr)))) (skipJWs r4)
    | '}' :: r4 => some (Jv.jobj (objSet acc k (Jv.jarr (outs.map Jv.jstr))), r4)
    | _ => none) = _
  rw [skipJWs_cons_nonws _ (by decide)]
  show parseGo (f + 1)
    (PTask.members (objSet acc k (Jv.jarr (outs.map Jv.jstr))))
    (skipJWs (' ' :: '"' :: rest)) = _
  rw [skipJWs_cons_ws _ (by decide), skipJWs_cons_nonws _ (by decide)]

theorem parseGo_member_str_last (f : Nat) (acc : List (Str × Jv))
    (k v tail : Str) (hk : ∀ c ∈ k, plainCh c) (hv : ∀ c ∈ v, plainCh c) :
    parseGo (f + 1 + 1) (PTask.members acc)
        ('"' :: (k ++ '"' :: ':' :: ' ' :: ('"' :: (v ++ '"' :: '}' :: tail))))
      = some (Jv.jobj (objSet acc k (Jv.jstr v)), tail) := by
  rw [parseGo_members_key (f + 1) acc k _ hk]
  rw [parseGo_val_str_sp f v _ hv]
  show (match skipJWs ('}' :: tail) with
    | ',' :: r4 => parseGo (f + 1)
        (PTask.members (objSet acc k (Jv.jstr v))) (skipJWs r4)
    | '}' :: r4 => some (Jv.jobj (objSet acc k (Jv.jstr v)), r4)
    | _ => none) = _
  rw [skipJWs_cons_nonws _ (by decide)]
  simp

theorem parseGo_val_serializeRecord (t : Str) (outs : List Str) (i : Str)
    (f : Nat) (hf : outs.length + 5 ≤ f) (ht : ∀ c ∈ t, plainCh c)
    (ho : ∀ o ∈ outs, ∀ c ∈ o, plainCh c) (hi : ∀ c ∈ i, plainCh c) :
    parseGo f PTask.val (serializeRecord t outs i)
      = some (recordJv t outs i, []) := by
  obtain ⟨m, rfl⟩ : ∃ m, f = m + 1 := ⟨f - 1, by omega⟩
  rw [serializeRecord_norm t outs i ht hi]
  rw [parseGo_val_objQ m]
  obtain ⟨a, rfl⟩ : ∃ a, m = a + 1 + 1 := ⟨m - 2, by omega⟩
  show parseGo (a + 1 + 1) (PTask.members [])
    ('"' :: ("title".toList ++ '"' :: ':' :: ' ' ::
      ('"' :: (t ++ '"' :: ',' :: ' ' :: '"' ::
        ('o' :: 'u' :: 't' :: 'l' :: 'i' :: 'n' :: 'e' :: '"' :: ':' :: ' ' ::
          '[' :: (serOuts outs ++ ']' :: ',' :: ' ' :: '"' ::
            ('i' :: 'n' :: 't' :: 'r' :: 'o' :: '"' :: ':' :: ' ' :: '"' ::
              (i ++ '"' :: '}' :: [])))))))) = _
  rw [parseGo_member_str a [] "title".toList t _ (by decide) ht]
  obtain ⟨b, rfl⟩ : ∃ b, a = b + 1 := ⟨a - 1, by omega⟩
  show parseGo (b + 1 + 1)
    (PTask.members (objSet [] "title".toList (Jv.jstr t)))
    ('"' :: ("outline".toList ++ '"' :: ':' :: ' ' ::
      ('[' :: (serOuts outs ++ ']' :: ',' :: ' ' :: '"' ::
        ('i' :: 'n' :: 't' :: 'r' :: 'o' :: '"' :: ':' :: ' ' :: '"' ::
          (i ++ '"' :: '}' :: [])))))) = _
  rw [parseGo_member_arr b _ ("outline".toList) outs _ (by omega) (by decide) ho]
  obtain ⟨c, rfl⟩ : ∃ c, b = c + 1 := ⟨b - 1, by omega⟩
  show parseGo (c + 1 + 1)
    (PTask.members (objSet (objSet [] "title".toList (Jv.jstr t))
      "outline".toList (Jv.jarr (outs.map Jv.jstr))))
    ('"' :: ("intro".toList ++ '"' :: ':' :: ' ' ::
      ('"' :: (i ++ '"' :: '}' :: [])))) = _
  rw [parseGo_member_str_last c _ ("intro".toList) i [] (by decide) hi]
  rfl

theorem serOuts_length (outs : List Str) :
    outs.length ≤ (serOuts outs).length := by
  induction outs with
  | nil => simp [serOuts]
  | cons x xs ih =>
    rcases xs with _ | ⟨y, tl⟩
    · simp [serOuts, dumpsStr]
    · rw [show serOuts (x :: y :: tl)
          = dumpsStr x ++ ',' :: ' ' :: serOuts (y :: tl) from rfl]
      simp only [List.length_append, List.length_cons] at ih ⊢
      omega

theorem parseJson_serializeRecord (t : Str) (outs : List Str) (i : Str)
    (ht : ∀ c ∈ t, plainCh c) (ho : ∀ o ∈ outs, ∀ c ∈ o, plainCh c)
    (hi : ∀ c ∈ i, plainCh c) :
    parseJson (serializeRecord t outs i) = some (recordJv t outs i) := by
  have h1 := serOuts_length outs
  have h2 : outs.length + 5 ≤ 2 * (serializeRecord t outs i).length + 2 := by
    rw [serializeRecord_cons]
    simp only [List.length_append, List.length_cons]
    omega
  unfold parseJson
  rw [parseGo_val_serializeRecord t outs i _ h2 ht ho hi]
  show (if skipJWs [] = [] then some (recordJv t outs i) else none) = _
  simp [skipJWs]

/-! Identity of the repair stages on texts that need no repair. -/

theorem withBraces_eq_self {x : Str} (hx : x.head? = some '{')
    (hl : x.getLast? = some '}') : withBraces x = x := by
  unfold withBraces
  rw [if_pos hx]
  show (if x.getLast? = some '}' then x else x ++ ['}']) = x
  rw [if_pos hl]

theorem fixJsonCorrectly_id {s : Str} (hstrip : pyStrip s = s)
    (hhead : s.head? = some '{') (hlast : s.getLast? = some '}')
    (hquoted : (pyContains titleKey s || pyContains outlineKey s
      || pyContains introKey s) = true)
    (htc : hasTCOcc s = false) :
    fixJsonCorrectly s = s := by
  simp only [fixJsonCorrectly]
  rw [hstrip, hstrip]
  rw [if_neg (by
    intro hcon
    obtain ⟨h1, _⟩ := hcon
    rw [hhead] at h1
    exact absurd h1 (by decide))]
  rw [if_pos hquoted]
  rw [withBraces_eq_self hhead hlast, rtc_eq_self htc]

theorem fixJsonSimple_id {s : Str} (hstrip : pyStrip s = s)
    (hhead : s.head? = some '{') (hlast : s.getLast? = some '}')
    (htc : hasTCOcc s = false) (hdq : hasDQ s = false) :
    fixJsonSimple s = s := by
  simp only [fixJsonSimple]
  rw [hstrip]
  have hs1 : (if ¬ s.head? = some '{'
      ∧ (pyContains titleKey s || pyContains outlineKey s) = true
      then '{' :: s else s) = s := if_neg (by intro hcon; exact hcon.1 hhead)
  rw [hs1]
  rw [if_neg (by intro hcon; exact hcon.1 hlast)]
  rw [rtc_eq_self htc, collapse_eq_self _ hdq]

theorem fixJsonCorrectly_serializeRecord (t : Str) (outs : List Str) (i : Str)
    (ht : cleanVal t) (ho : ∀ o ∈ outs, cleanVal o) (hi : cleanVal i) :
    fixJsonCorrectly (serializeRecord t outs i) = serializeRecord t outs i := by
  have hhead := serializeRecord_head t outs i
  have hlast := serializeRecord_getLast t outs i
  refine fixJsonCorrectly_id (pyStrip_eq_self hhead (by decide) hlast (by decide))
    hhead hlast ?_ (hasTCOcc_serializeRecord t outs i ht ho hi)
  rw [serializeRecord_has_title]
  simp

example : parseJson ("[1, 2.5, true, null, \"x\"]".toList)
    = some (Jv.jarr [Jv.jnum ("1".toList), Jv.jnum ("2.5".toList),
        Jv.jbool true, Jv.jnull, Jv.jstr ("x".toList)]) := rfl
example : parseJson ("\x7b\"a\": 1,\x7d".toList) = none := rfl
example : parseJson ("\x7b\"t\"itle\"\": \"A\"\x7d".toList) = none := rfl

/-! ### Concrete test inputs from the specification -/

/-- The default topic of the scripts. -/
def demoTopic : Str := "Home Workout Routines".toList
/-- The default tone of the scripts. -/
def demoTone : Str := "Friendly".toList
/-- The already-valid raw text of the no-double-quoting spec test. -/
def rawAlreadyQuoted : Str :=
  "\x7b\"title\": \"A\", \"outline\": [\"B\"], \"intro\": \"C\"\x7d".toList
/-- What the lookbehind key-quoting regex of `generate_fixed_v2.py`
actually produces on `rawAlreadyQuoted`. -/
def corruptedLbOut : Str :=
  "\x7b\"t\"itle\"\": \"A\", \"o\"utline\"\": [\"B\"], \"i\"ntro\"\": \"C\"\x7d".toList
/-- What the plain key-quoting regex of `generate_fixed.py` produces on
`rawAlreadyQuoted`. -/
def corruptedNoLbOut : Str :=
  "\x7b\"\"title\"\": \"A\", \"\"outline\"\": [\"B\"], \"\"intro\"\": \"C\"\x7d".toList
/-- Valid JSON with only the `title` field. -/
def rawTitleOnly : Str := "\x7b\"title\": \"A\"\x7d".toList
/-- A list-shaped input hidden behind a leading space. -/
def rawWsList : Str := " [1]".toList
/-- Valid schema-conforming JSON whose title value contains `, ]`. -/
def rawValCommaClose : Str :=
  "\x7b\"title\": \"A, ]\", \"outline\": [\"B\"], \"intro\": \"C\"\x7d".toList
/-- Input whose repair succeeds with a title value containing `,]`. -/
def rawValCommaClose2 : Str :=
  "\x7b\"title\": \"A,, ]\", \"outline\": [\"B\"], \"intro\": \"C\"\x7d".toList
/-- Raw text with a corrupted middle but intact field fragments. -/
def rawCorruptMiddle : Str :=
  "\x7b\"title\":\"T\", ##garbage## \"outline\": [\"X\",\"Y\",\"Z\"], \"intro\":\"I\"\x7d".toList
/-- The trailing-comma spec test input. -/
def rawTrailingComma : Str :=
  "\x7b\"title\":\"A\",\"outline\":[\"B\",\"C\",\"D\"],\x7d".toList
/-- The braceless spec test input. -/
def rawBraceless : Str :=
  "\"title\":\"A\",\"outline\":[\"B\",\"C\",\"D\"],\"intro\":\"E\"".toList

/-! ### The claims -/

/-- C1: the spec requires that already-quoted keys are never re-quoted,
but both cited key-quoting regexes corrupt them.  On the spec test
input, the `generate_fixed_v2.py` lookbehind regex turns `"title"` into
`"t"itle""` (the negative lookbehind only shifts the match one
character to the right) and the `generate_fixed.py` regex turns it into
`""title""`.  The input itself is valid schema-conforming JSON, yet
both full repairs produce unparseable text. -/
theorem claim1_key_quoting_bug :
    quoteKeysLb rawAlreadyQuoted = corruptedLbOut
      ∧ quoteKeys rawAlreadyQuoted = corruptedNoLbOut
      ∧ parseJson rawAlreadyQuoted
          = some (recordJv ("A".toList) ["B".toList] ("C".toList))
      ∧ schemaOK (recordJv ("A".toList) ["B".toList] ("C".toList)) = true
      ∧ parseJson (fixJsonV2 rawAlreadyQuoted) = none
      ∧ parseJson (fixJsonGF rawAlreadyQuoted) = none :=
  ⟨rfl, rfl, rfl, rfl, rfl, rfl⟩

/-- C2 counterexample: the pipeline of `corrected_generate.py` reports
success on `{"title": "A"}`, a record missing `outline` and `intro`, so
a parse missing required fields is reported as success. -/
theorem claim2_counterexample :
    mainResultCG demoTopic demoTone rawTitleOnly
        = Outcome.success (Jv.jobj [("title".toList, Jv.jstr ("A".toList))])
      ∧ schemaOK (Jv.jobj [("title".toList, Jv.jstr ("A".toList))]) = false :=
  ⟨rfl, rfl⟩

/-- C2 (amended): the pipelines report success exactly when
`json.loads` succeeds on the repaired text; no required-field or shape
validation is performed, and a successfully parsed value may violate
the schema. -/
theorem claim2_amended :
    (∀ topic tone raw v, mainResultCG topic tone raw = Outcome.success v
      ↔ parseJson (fixJsonCorrectly raw) = some v)
      ∧ (∀ topic tone raw v, mainResultGF topic tone raw = Outcome.success v
        ↔ parseJson (fixJsonGF raw) = some v)
      ∧ (∃ raw v, parseJson (fixJsonCorrectly raw) = some v
          ∧ schemaOK v = false) := by
  refine ⟨?_, ?_,
    ⟨rawTitleOnly, Jv.jobj [("title".toList, Jv.jstr ("A".toList))], rfl, rfl⟩⟩
  · intro topic tone raw v
    unfold mainResultCG
    cases h : parseJson (fixJsonCorrectly raw) with
    | some w => simp
    | none => simp
  · intro topic tone raw v
    unfold mainResultGF
    cases h : parseJson (fixJsonGF raw) with
    | some w => simp
    | none => simp

/-- C3 counterexample: `fix_json` of `generate_fixed.py` tests the
untrimmed input, so the list-shaped input `" [1]"` (whose trimmed form
begins with `[`) is not rejected: it is brace-wrapped to `"{ [1]}"`
instead of returning the typed error object. -/
theorem claim3_counterexample :
    fixJsonGF rawWsList = ("\x7b [1]\x7d".toList)
      ∧ (pyStrip rawWsList).head? = some '['
      ∧ ¬ fixJsonGF rawWsList = errPayloadGF rawWsList
      ∧ (fixJsonGF rawWsList).head? = some '{' :=
  ⟨rfl, rfl, by decide, rfl⟩

/-- C3 (amended): for every input that begins with `[` before trimming,
all three repair variants immediately return their fixed error object —
`generate_fixed.py`/`generate_fixed_v2.py` embed at most the first 100
characters of the quote-escaped raw text, `corrected_generate.py`
embeds none — and never brace-wrap.  Only `corrected_generate.py` also
rejects when just the trimmed form begins with `[`: `generate_fixed.py`
and `generate_fixed_v2.py` test the untrimmed input. -/
theorem claim3_amended :
    ∀ s : Str, s.head? = some '[' →
      fixJsonGF s = errPayloadGF s
        ∧ fixJsonV2 s = errPayloadGF s
        ∧ fixJsonCorrectly s = errPayloadCG
        ∧ ((escapeQuotes s).take 100).length ≤ 100 := by
  intro s hs
  have hstriphead : (pyStrip s).head? = some '[' :=
    pyStrip_head_nonws hs (by decide)
  have hnotbrace : ¬ (pyStrip s).head? = some '{' := by
    rw [hstriphead]; decide
  have hnotbrace2 : ¬ (pyStrip (pyStrip s)).head? = some '{' := by
    rw [pyStrip_head_nonws hstriphead (by decide)]; decide
  refine ⟨?_, ?_, ?_, ?_⟩
  · unfold fixJsonGF
    rw [if_pos ⟨hs, hnotbrace⟩]
  · unfold fixJsonV2
    rw [if_pos ⟨hs, hnotbrace⟩]
  · unfold fixJsonCorrectly
    rw [if_pos ⟨hstriphead, hnotbrace2⟩]
  · rw [List.length_take]
    omega

/-- C3 witness: the spec test input `["a","b","c"]` is rejected by all
three variants. -/
theorem claim3_witness :
    fixJsonGF ("[\"a\",\"b\",\"c\"]".toList)
        = errPayloadGF ("[\"a\",\"b\",\"c\"]".toList)
      ∧ fixJsonV2 ("[\"a\",\"b\",\"c\"]".toList)
        = errPayloadGF ("[\"a\",\"b\",\"c\"]".toList)
      ∧ fixJsonCorrectly ("[\"a\",\"b\",\"c\"]".toList) = errPayloadCG
      ∧ ((escapeQuotes ("[\"a\",\"b\",\"c\"]".toList)).take 100).length ≤ 100 :=
  claim3_amended ("[\"a\",\"b\",\"c\"]".toList) rfl

/-- C4 counterexample: `{"title": "A, ]", "outline": ["B"], "intro":
"C"}` is valid JSON satisfying the schema, but the trailing-comma regex
of `fix_json_correctly` rewrites the `, ]` inside the title value, so
repair returns a record whose title is `A]`, not the parsed original
`A, ]`. -/
theorem claim4_counterexample :
    parseJson rawValCommaClose
        = some (recordJv ("A, ]".toList) ["B".toList] ("C".toList))
      ∧ schemaOK (recordJv ("A, ]".toList) ["B".toList] ("C".toList)) = true
      ∧ parseJson (fixJsonCorrectly rawValCommaClose)
        = some (recordJv ("A]".toList) ["B".toList] ("C".toList))
      ∧ fieldStr (recordJv ("A]".toList) ["B".toList] ("C".toList))
          ("title".toList) = some ("A]".toList)
      ∧ fieldStr (recordJv ("A, ]".toList) ["B".toList] ("C".toList))
          ("title".toList) = some ("A, ]".toList)
      ∧ ¬ ("A]".toList : Str) = "A, ]".toList :=
  ⟨rfl, rfl, rfl, rfl, rfl, by decide⟩

/-- C4 (amended): already-valid passthrough holds for valid
schema-satisfying input that is trimmed, brace-delimited, contains a
quoted required key, and contains no `,\s*[}\]]` occurrence (for
`fix_json_simple` additionally no `""` occurrence): on such input the
repair stages are the identity and repair returns exactly the parsed
record. -/
theorem claim4_amended :
    ∀ (s : Str) (R : Jv), pyStrip s = s → s.head? = some '{' →
      s.getLast? = some '}' →
      (pyContains titleKey s || pyContains outlineKey s
        || pyContains introKey s) = true →
      hasTCOcc s = false → parseJson s = some R → schemaOK R = true →
      parseJson (fixJsonCorrectly s) = some R
        ∧ (hasDQ s = false → parseJson (fixJsonSimple s) = some R) := by
  intro s R hstrip hhead hlast hq htc hparse _
  constructor
  · rw [fixJsonCorrectly_id hstrip hhead hlast hq htc]
    exact hparse
  · intro hdq
    rw [fixJsonSimple_id hstrip hhead hlast htc hdq]
    exact hparse

/-- C4 witness: the spec test input passes through both repair variants
unchanged. -/
theorem claim4_witness :
    parseJson (fixJsonCorrectly rawAlreadyQuoted)
        = some (recordJv ("A".toList) ["B".toList] ("C".toList))
      ∧ (hasDQ rawAlreadyQuoted = false →
        parseJson (fixJsonSimple rawAlreadyQuoted)
          = some (recordJv ("A".toList) ["B".toList] ("C".toList))) :=
  claim4_amended rawAlreadyQuoted
    (recordJv ("A".toList) ["B".toList] ("C".toList))
    rfl rfl rfl rfl rfl rfl rfl

/-- C5 counterexample: on `{"title": "A,, ]", "outline": ["B"],
"intro": "C"}` repair succeeds with title `A,]`; repairing the
serialization of that record succeeds but yields title `A]`, so
idempotence on success fails. -/
theorem claim5_counterexample :
    parseJson (fixJsonCorrectly rawValCommaClose2)
        = some (recordJv ("A,]".toList) ["B".toList] ("C".toList))
      ∧ parseJson (fixJsonCorrectly
          (serializeRecord ("A,]".toList) ["B".toList] ("C".toList)))
        = some (recordJv ("A]".toList) ["B".toList] ("C".toList))
      ∧ fieldStr (recordJv ("A]".toList) ["B".toList] ("C".toList))
          ("title".toList) = some ("A]".toList)
      ∧ fieldStr (recordJv ("A,]".toList) ["B".toList] ("C".toList))
          ("title".toList) = some ("A,]".toList)
      ∧ ¬ ("A]".toList : Str) = "A,]".toList :=
  ⟨rfl, rfl, rfl, rfl, by decide⟩

/-- C5 (amended): idempotence on success holds when the successful
record is a schema record whose string values are plain printable ASCII
(no quote or backslash) and contain no `,\s*[}\]]` occurrence up to
their closing quote: then repairing its `json.dumps` serialization
succeeds and returns the same record. -/
theorem claim5_amended :
    ∀ (raw t : Str) (outs : List Str) (i : Str),
      parseJson (fixJsonCorrectly raw) = some (recordJv t outs i) →
      cleanVal t → (∀ o ∈ outs, cleanVal o) → cleanVal i →
      parseJson (fixJsonCorrectly (serializeRecord t outs i))
        = some (recordJv t outs i) := by
  intro raw t outs i _ ht ho hi
  rw [fixJsonCorrectly_serializeRecord t outs i ht ho hi]
  exact parseJson_serializeRecord t outs i ht.1 (fun o hm => (ho o hm).1) hi.1

/-- C5 witness: the spec test record round-trips through
serialization and repair. -/
theorem claim5_witness :
    cleanVal ("A".toList)
      ∧ parseJson (fixJsonCorrectly
          (serializeRecord ("A".toList) ["B".toList] ("C".toList)))
        = some (recordJv ("A".toList) ["B".toList] ("C".toList)) :=
  ⟨by decide, claim5_amended rawAlreadyQuoted ("A".toList) ["B".toList]
    ("C".toList) rfl (by decide) (by decide) (by decide)⟩

/-- C2 witness: the amended success characterization at the
title-only input. -/
theorem claim2_witness :
    mainResultCG demoTopic demoTone rawTitleOnly
      = Outcome.success (Jv.jobj [("title".toList, Jv.jstr ("A".toList))]) :=
  (claim2_amended.1 demoTopic demoTone rawTitleOnly
    (Jv.jobj [("title".toList, Jv.jstr ("A".toList))])).mpr rfl

/-- C6 counterexample: the salvage stage of `generate_fixed_v2.py`
searches the *cleaned* text, not the raw input.  On the already-valid
spec test input the cleaning stage corrupts the keys, the whole-parse
fails, the `'"title":' in cleaned` guard fails on the corrupted text,
and `main` reports the template fallback — even though every required
field is present in the raw text and each of the three salvage patterns
matches it there. -/
theorem claim6_counterexample :
    mainResultV2 demoTopic demoTone rawAlreadyQuoted
        = Outcome.fallback (fallbackRecord demoTopic demoTone)
      ∧ searchPat titleKey matchStrVal rawAlreadyQuoted = some ("A".toList)
      ∧ searchPat outlineKey matchArrVal rawAlreadyQuoted
        = some ("[\"B\"]".toList)
      ∧ searchPat introKey matchStrVal rawAlreadyQuoted = some ("C".toList)
      ∧ pyContains titleKey rawAlreadyQuoted = true
      ∧ pyContains outlineKey rawAlreadyQuoted = true
      ∧ pyContains introKey rawAlreadyQuoted = true :=
  ⟨rfl, rfl, rfl, rfl, rfl, rfl, rfl⟩

/-- C6 (amended): only `simple_fix.py` salvages from the *raw* text:
on raw input with a corrupted middle but intact field fragments its
whole-document parse fails and `main` reconstructs the full record by
slicing the raw text; `generate_fixed_v2.py` instead searches the
cleaned text and falls back on the already-valid input that its own
cleaning corrupted. -/
theorem claim6_amended :
    parseJson (fixJsonSimple rawCorruptMiddle) = none
      ∧ mainResultSF demoTopic rawCorruptMiddle
        = Outcome.reconstructed (recordJv ("T".toList)
          ["X".toList, "Y".toList, "Z".toList] ("I".toList))
      ∧ mainResultV2 demoTopic demoTone rawAlreadyQuoted
        = Outcome.fallback (fallbackRecord demoTopic demoTone) :=
  ⟨rfl, rfl, rfl⟩

/-- C7 counterexample: `generate_fixed.py` is cited for the claim, but
its pipeline fails on the spec's trailing-comma test: its key-quoting
stage corrupts the already-quoted keys before the trailing-comma stage
ever runs, parsing fails, and `main` reports the template fallback
instead of a record with outline `["B","C","D"]`. -/
theorem claim7_counterexample :
    mainResultGF demoTopic demoTone rawTrailingComma
        = Outcome.fallback (fallbackRecord demoTopic demoTone)
      ∧ parseJson (fixJsonGF rawTrailingComma) = none :=
  ⟨rfl, rfl⟩

/-- C7 (amended): the trailing-comma regex `,\s*([}\])` does remove
every comma followed by optional whitespace and a closing `}` or `]`,
at all occurrences: in a text with two such occurrences both are
removed in one pass.  And `fix_json_correctly` (whose key-quoting is
guarded) repairs the spec test input to a parse with outline
`["B","C","D"]`. -/
theorem claim7_amended :
    (∀ (p w1 q w2 r : Str) (c1 c2 : Char),
      (',' ∈ p → False) → (',' ∈ q → False) →
      (∀ x ∈ w1, isPyWs x = true) → (∀ x ∈ w2, isPyWs x = true) →
      isCloseCh c1 = true → isCloseCh c2 = true →
      removeTrailingCommas
          (p ++ ',' :: (w1 ++ c1 :: (q ++ ',' :: (w2 ++ c2 :: r))))
        = p ++ c1 :: (q ++ c2 :: removeTrailingCommas r))
      ∧ parseJson (fixJsonCorrectly rawTrailingComma)
        = some (Jv.jobj [("title".toList, Jv.jstr ("A".toList)),
          ("outline".toList, Jv.jarr [Jv.jstr ("B".toList),
            Jv.jstr ("C".toList), Jv.jstr ("D".toList)])]) := by
  refine ⟨?_, rfl⟩
  intro p w1 q w2 r c1 c2 hp hq hw1 hw2 hc1 hc2
  unfold removeTrailingCommas
  rw [rtc_no_comma_append p _ hp]
  rw [show rtcGo none (',' :: (w1 ++ c1 :: (q ++ ',' :: (w2 ++ c2 :: r))))
      = rtcGo (some []) (w1 ++ c1 :: (q ++ ',' :: (w2 ++ c2 :: r)))
    by simp [rtcGo]]
  rw [rtcGo_pending_wsclose w1 [] _ hw1 hc1]
  rw [rtc_no_comma_append q _ hq]
  rw [show rtcGo none (',' :: (w2 ++ c2 :: r))
      = rtcGo (some []) (w2 ++ c2 :: r) by simp [rtcGo]]
  rw [rtcGo_pending_wsclose w2 [] r hw2 hc2]

/-- C7 witness: both trailing commas of a two-occurrence text are
removed in one pass. -/
theorem claim7_witness :
    removeTrailingCommas (("ab".toList) ++ ',' :: ([' '] ++ ']'
        :: (("cd".toList) ++ ',' :: ([] ++ '}' :: ("e".toList)))))
      = ("ab".toList) ++ ']'
        :: (("cd".toList) ++ '}' :: removeTrailingCommas ("e".toList)) :=
  claim7_amended.1 ("ab".toList) [' '] ("cd".toList) [] ("e".toList) ']' '}'
    (by decide) (by decide) (by decide) (by decide) rfl rfl

/-- C8 counterexample: brace completion in `fix_json_simple` is not
unconditional: it only runs when `"title"` or `"outline"` occurs in the
text, so the braceless input `"intro":"E"` is returned without braces
added. -/
theorem claim8_counterexample :
    fixJsonSimple ("\"intro\":\"E\"".toList) = ("\"intro\":\"E\"".toList)
      ∧ ¬ (fixJsonSimple ("\"intro\":\"E\"".toList)).head? = some '{'
      ∧ ¬ (fixJsonSimple ("\"intro\":\"E\"".toList)).getLast? = some '}' :=
  ⟨rfl, by decide, by decide⟩

/-- C8 (amended): in `fix_json_correctly` brace completion is genuinely
unconditional for non-list-shaped input — the output always starts with
`{` and ends with `}` — and the spec's braceless test input repairs
successfully with all three fields under both `fix_json_correctly` and
`fix_json_simple` (the latter because that input does contain
`"title"`). -/
theorem claim8_amended :
    (∀ s : Str, ¬ (pyStrip s).head? = some '[' →
      (fixJsonCorrectly s).head? = some '{'
        ∧ (fixJsonCorrectly s).getLast? = some '}')
      ∧ parseJson (fixJsonCorrectly rawBraceless)
        = some (recordJv ("A".toList) ["B".toList, "C".toList, "D".toList]
          ("E".toList))
      ∧ parseJson (fixJsonSimple rawBraceless)
        = some (recordJv ("A".toList) ["B".toList, "C".toList, "D".toList]
          ("E".toList)) :=
  ⟨fun _ h => fixJsonCorrectly_braces h, rfl, rfl⟩

/-- C8 witness: brace completion on a plain word. -/
theorem claim8_witness :
    (fixJsonCorrectly ("x".toList)).head? = some '{'
      ∧ (fixJsonCorrectly ("x".toList)).getLast? = some '}' :=
  claim8_amended.1 ("x".toList) (by decide)

/-- C9: totality of the repair pipelines: for every input string the
`main` of `generate_fixed.py` reports either the parsed value or the
template fallback, and the `main` of `simple_fix.py` reports either the
parsed value, a reconstructed record, the template fallback, or nothing
— every malformed-input outcome is an ordinary result, never an
exception (the embedded parse and repair functions are total, and every
`json.loads` call in the source sits under a `try`/`except`). -/
theorem claim9_theorem :
    (∀ topic tone raw : Str,
      (∃ v, mainResultGF topic tone raw = Outcome.success v)
        ∨ mainResultGF topic tone raw
          = Outcome.fallback (fallbackRecord topic tone))
      ∧ (∀ topic raw : Str,
        (∃ v, mainResultSF topic raw = Outcome.success v)
          ∨ (∃ r, mainResultSF topic raw = Outcome.reconstructed r)
          ∨ mainResultSF topic raw
            = Outcome.fallback (fallbackRecordSF topic)
          ∨ mainResultSF topic raw = Outcome.silent) := by
  constructor
  · intro topic tone raw
    unfold mainResultGF
    cases h : parseJson (fixJsonGF raw) with
    | some v => exact Or.inl ⟨v, rfl⟩
    | none => exact Or.inr rfl
  · intro topic raw
    unfold mainResultSF
    cases h : parseJson (fixJsonSimple raw) with
    | some v => exact Or.inl ⟨v, rfl⟩
    | none =>
      by_cases hg : (pyContains titleKey raw && pyContains outlineKey raw
          && pyContains introKey raw) = true
      · rw [if_pos hg]
        cases hr : reconstructSF raw with
        | some r => exact Or.inr (Or.inl ⟨r, rfl⟩)
        | none => exact Or.inr (Or.inr (Or.inl rfl))
      · rw [if_neg hg]
        exact Or.inr (Or.inr (Or.inr rfl))

/-- A value with a key is an object (`isinstance(data, dict)`). -/
theorem hasKey_jobj : ∀ (v : Jv) (k : Str), hasKey v k = true →
    ∃ kvs, v = Jv.jobj kvs := by
  intro v k h
  cases v with
  | jstr s => exact absurd h (by simp [hasKey])
  | jnum s => exact absurd h (by simp [hasKey])
  | jbool b => exact absurd h (by simp [hasKey])
  | jnull => exact absurd h (by simp [hasKey])
  | jarr xs => exact absurd h (by simp [hasKey])
  | jobj kvs => exact ⟨kvs, rfl⟩

/-- One-step unfolding of the candidate loop. -/
theorem tryCandidates_cons (m : Str) (rest : List Str) :
    tryCandidates (m :: rest)
      = match parseJson m with
        | some w => if hasKey w ("title".toList) then some w
            else tryCandidates rest
        | none => tryCandidates rest := rfl

/-- Any candidate the loop accepts passed the `'title' in data`
check. -/
theorem tryCandidates_spec : ∀ (ms : List Str) (v : Jv),
    tryCandidates ms = some v → hasKey v ("title".toList) = true := by
  intro ms
  induction ms with
  | nil =>
    intro v h
    exact absurd h (by simp [tryCandidates])
  | cons m rest ih =>
    intro v h
    cases hp : parseJson m with
    | some w =>
      simp only [tryCandidates_cons, hp] at h
      by_cases hk : hasKey w ("title".toList) = true
      · rw [if_pos hk] at h
        exact (Option.some.inj h) ▸ hk
      · rw [if_neg hk] at h
        exact ih v h
    | none =>
      simp only [tryCandidates_cons, hp] at h
      exact ih v h

/-- C10: every non-None result of `extract_json_from_text` is a dict
containing the key `'title'`; and the routine never checks `outline`
or `intro`, so an extracted record may lack both. -/
theorem claim10_theorem :
    (∀ (text : Str) (v : Jv), extractJsonFromText text = some v →
      (∃ kvs, v = Jv.jobj kvs) ∧ hasKey v ("title".toList) = true)
      ∧ (∃ (text : Str) (v : Jv), extractJsonFromText text = some v
          ∧ hasKey v ("outline".toList) = false
          ∧ hasKey v ("intro".toList) = false) := by
  constructor
  · intro text v h
    have hk : hasKey v ("title".toList) = true :=
      tryCandidates_spec (pyFindallJson text) v h
    exact ⟨hasKey_jobj v ("title".toList) hk, hk⟩
  · exact ⟨("x \x7b\"title\": \"A\"\x7d y".toList),
      Jv.jobj [("title".toList, Jv.jstr ("A".toList))], rfl, rfl, rfl⟩

/-- C10 witness: an extraction embedded in surrounding prose. -/
theorem claim10_witness :
    (∃ kvs, (Jv.jobj [("title".toList, Jv.jstr ("A".toList))] : Jv)
        = Jv.jobj kvs)
      ∧ hasKey (Jv.jobj [("title".toList, Jv.jstr ("A".toList))])
        ("title".toList) = true :=
  claim10_theorem.1 ("x \x7b\"title\": \"A\"\x7d y".toList)
    (Jv.jobj [("title".toList, Jv.jstr ("A".toList))]) rfl

end VoiceAssistant
